import Mathlib

/-!
Verification of the Box-World JSON → PDDL translator (`src/json-to-pddl.py`).

The Python program is shallowly embedded here:

* JSON values (the result of `json.load`) become the inductive type `J`;
  Python dicts are association lists in insertion order.
* `parse_named_objects`, `load_ProblemSpec`, `validate_spec` become
  `Except String`-valued functions; a raised `ValueError` is an `Except.error`
  carrying the message.
* `atom`, `and_formula`, `color_facts`, `init_facts`, `goal_formula`,
  `emit_pddl_problem` are translated as pure functions on `ProblemSpec`.
* `parse_action_atom` / `parse_fd_plan_text` operate on `List Char`
  (the `String.data` of the input), with Python `str.strip`, `str.split`,
  `str.splitlines` and the `cost\s*=\s*([0-9]+)` regex search modelled
  explicitly.
* Python's lexicographic string comparison (`sorted`) is modelled by `strLe`
  on code points, which matches CPython's code-point comparison.
-/

/-- JSON values as produced by `json.load`.  Object fields keep insertion
order, like Python dicts. -/
inductive J where
  | null
  | bool (b : Bool)
  | num (n : Int)
  | str (s : String)
  | arr (elems : List J)
  | obj (fields : List (String × J))

/-- A property bag attached to a declared location or box: a Python dict of
arbitrary JSON values (`Dict[str, Any]` in the source). -/
abbrev Props := List (String × J)

/-- First-match association-list lookup: Python `d[k]` / `d.get(k)` on a dict
with distinct keys. -/
def alookup {α : Type} (l : List (String × α)) (k : String) : Option α :=
  (l.find? (fun p => p.1 == k)).map Prod.snd

/-- Python `k in d` for a dict. -/
def akey {α : Type} (l : List (String × α)) (k : String) : Bool :=
  l.any (fun p => p.1 == k)

/-- Python `<` on strings, on the underlying code-point lists: lexicographic
with a proper prefix sorting first.  This is `strLe` without equality. -/
def strLe : List Char → List Char → Bool
  | [], _ => true
  | _ :: _, [] => false
  | a :: as, b :: bs => if a = b then strLe as bs else decide (a < b)

/-- Python `<=` on strings, as a proposition over Lean strings. -/
def pyLe (s t : String) : Prop := strLe s.data t.data = true

instance : DecidableRel pyLe := fun s t => by unfold pyLe; infer_instance

/-- Python `sorted` on a list of strings (code-point lexicographic order). -/
def sortStrings (l : List String) : List String :=
  List.insertionSort pyLe l

/-- Python `" ".join(args)`. -/
def joinSpace : List String → String
  | [] => ""
  | [x] => x
  | x :: rest => x ++ " " ++ joinSpace rest

/-- Python `"\n".join(lines)`. -/
def joinNl : List String → String
  | [] => ""
  | [x] => x
  | x :: rest => x ++ "\n" ++ joinNl rest

/-- Python `", ".join(items)`. -/
def joinComma : List String → String
  | [] => ""
  | [x] => x
  | x :: rest => x ++ ", " ++ joinComma rest

/-- Source `atom`: render a fact as `(pred arg1 arg2)`, or `(pred)` without
arguments. -/
def atom (pred : String) (args : List String) : String :=
  if args.isEmpty then "(" ++ pred ++ ")"
  else "(" ++ pred ++ " " ++ joinSpace args ++ ")"

/-- Source `and_formula`: empty list renders as `(and)`, a single atom is
returned unwrapped, two or more atoms are wrapped in one conjunction. -/
def and_formula : List String → String
  | [] => "(and)"
  | [a] => a
  | atoms => "(and " ++ joinSpace atoms ++ ")"

/-- Source `is_name`: a JSON value that is a non-empty string. -/
def is_name : J → Bool
  | J.str s => !s.data.isEmpty
  | _ => false

/-- Extract the string from a JSON value already checked by `is_name` (or by a
membership test against declared names). -/
def jStr : J → String
  | J.str s => s
  | _ => ""

/-- Python `str(v)` as it appears interpolated in the source's error messages
for raw JSON values (exact only for strings, which is all the checks compare;
other shapes are placeholders). -/
def jShow : J → String
  | J.str s => s
  | J.null => "None"
  | J.bool true => "True"
  | J.bool false => "False"
  | J.num n => toString n
  | J.arr _ => "(list)"
  | J.obj _ => "(dict)"

/-- Python `type(v)` as interpolated into the schema error message. -/
def type_name : J → String
  | J.null => "<class 'NoneType'>"
  | J.bool _ => "<class 'bool'>"
  | J.num _ => "<class 'int'>"
  | J.str _ => "<class 'str'>"
  | J.arr _ => "<class 'list'>"
  | J.obj _ => "<class 'dict'>"

/-- Python membership of a raw JSON value in a set of declared names:
`v in name_set` is true only for a string equal to a declared name. -/
def inNames (names : List String) : J → Bool
  | J.str s => names.contains s
  | _ => false

/-- Python `repr` of a list of strings, as interpolated by `f"... {sorted(xs)}"`
in the validation error messages. -/
def pyListRepr (l : List String) : String :=
  "[" ++ joinComma (l.map (fun s => "'" ++ s ++ "'")) ++ "]"

/-- Keys of a dict in the order produced by a Python dict comprehension over a
list with possible duplicates: first occurrence wins, later duplicates are
collapsed into the existing key. -/
def firstDedup : List String → List String :=
  go []
where
  go (seen : List String) : List String → List String
    | [] => []
    | x :: rest => if seen.contains x then go seen rest else x :: go (x :: seen) rest

/-- Source `canonical_keys` on a dict: sort the keys lexicographically (on a
list it is the identity, which `parse_named_objects` inlines). -/
def canonical_keys (kvs : List (String × J)) : List String :=
  sortStrings (kvs.map Prod.fst)

/-- The canonical, validated problem specification (source dataclass
`ProblemSpec`).  `stacks` maps a location to its boxes top→bottom. -/
structure ProblemSpec where
  problem_name : String
  locations : List String
  boxes : List String
  loc_props : List (String × Props)
  box_props : List (String × Props)
  robot_at : String
  holding : Option String
  stacks' : List (String × List String)
  forbidden_stack : List (String × String)
  goal_on : List (String × String)
  goal_at : List (String × String)
  goal_clear : List String
  goal_pddl : List String

/-- The loop body of the mapping branch of `parse_named_objects`: build the
properties map for the sorted key list, failing on a value that is neither an
object nor null.  The `none` case cannot occur (keys come from the mapping). -/
def build_props (field : List (String × J)) (kind : String) :
    List String → Except String (List (String × Props))
  | [] => Except.ok []
  | n :: rest =>
    match alookup field n with
    | some J.null => (fun ps => (n, ([] : Props)) :: ps) <$> build_props field kind rest
    | some (J.obj kvs) => (fun ps => (n, kvs) :: ps) <$> build_props field kind rest
    | some v =>
        Except.error ("\"" ++ kind ++ "\" dict values must be objects (properties) or null; got "
          ++ type_name v ++ " for " ++ n)
    | none => Except.error "unreachable: canonical_keys key missing from mapping"

/-- Source `parse_named_objects`: accept either a list of names (order
preserved, duplicates kept) or a mapping name → properties-or-null (keys
sorted lexicographically). -/
def parse_named_objects (field : J) (kind : String) :
    Except String (List String × List (String × Props)) :=
  match field with
  | J.arr xs =>
    if xs.all is_name then
      let names := xs.map jStr
      Except.ok (names, (firstDedup names).map (fun n => (n, ([] : Props))))
    else Except.error ("\"" ++ kind ++ "\" list must contain only strings")
  | J.obj kvs =>
    (fun props => (canonical_keys kvs, props)) <$> build_props kvs kind (canonical_keys kvs)
  | _ =>
    Except.error ("\"" ++ kind ++ "\" must be either a list of names or an object mapping name -> properties")

/-- The stacks-normalization loop of `load_ProblemSpec`: unknown location and
non-list values are errors, null and empty stacks are skipped, members must be
declared box names. -/
def build_stacks (locations boxes : List String) :
    List (String × J) → Except String (List (String × List String))
  | [] => Except.ok []
  | (l, stackj) :: rest =>
    if !(locations.contains l) then
      Except.error ("initial_state.stacks references unknown location \"" ++ l ++ "\"")
    else
      match stackj with
      | J.null => build_stacks locations boxes rest
      | J.arr items =>
        if items.isEmpty then build_stacks locations boxes rest
        else if !(items.all is_name) then
          Except.error ("initial_state.stacks[\"" ++ l ++ "\"] must contain only box name strings")
        else
          match (items.map jStr).find? (fun b => !(boxes.contains b)) with
          | some b =>
              Except.error ("initial_state.stacks[\"" ++ l ++ "\"] contains unknown box \"" ++ b ++ "\"")
          | none => (fun rest' => (l, items.map jStr) :: rest') <$> build_stacks locations boxes rest
      | _ => Except.error ("initial_state.stacks[\"" ++ l ++ "\"] must be a list (top->bottom)")

/-- The forbidden_stack loop of `load_ProblemSpec`. -/
def build_pairs (boxes : List String) : List J → Except String (List (String × String))
  | [] => Except.ok []
  | pair :: rest =>
    match pair with
    | J.arr [tj, bj] =>
        if inNames boxes tj && inNames boxes bj then
          (fun ps => (jStr tj, jStr bj) :: ps) <$> build_pairs boxes rest
        else
          Except.error ("forbidden_stack pair must reference boxes; got ["
            ++ jShow tj ++ ", " ++ jShow bj ++ "]")
    | _ => Except.error "Each forbidden_stack entry must be a pair [top, bottom]"

/-- The goal.on loop of `load_ProblemSpec`: top must be a declared box, the
support a declared box or location. -/
def build_goal_on (boxes locations : List String) :
    List J → Except String (List (String × String))
  | [] => Except.ok []
  | pair :: rest =>
    match pair with
    | J.arr [tj, sj] =>
        if !(inNames boxes tj) then
          Except.error ("goal.on top must be a box; got \"" ++ jShow tj ++ "\"")
        else if !(inNames boxes sj) && !(inNames locations sj) then
          Except.error ("goal.on support must be a box or location; got \"" ++ jShow sj ++ "\"")
        else (fun ps => (jStr tj, jStr sj) :: ps) <$> build_goal_on boxes locations rest
    | _ => Except.error "Each goal.on entry must be a pair [top, support]"

/-- The goal.box-at loop of `load_ProblemSpec`. -/
def build_goal_at (boxes locations : List String) :
    List J → Except String (List (String × String))
  | [] => Except.ok []
  | pair :: rest =>
    match pair with
    | J.arr [bj, lj] =>
        if !(inNames boxes bj) then
          Except.error ("goal.box-at box must be a box; got \"" ++ jShow bj ++ "\"")
        else if !(inNames locations lj) then
          Except.error ("goal.box-at location must be a location; got \"" ++ jShow lj ++ "\"")
        else (fun ps => (jStr bj, jStr lj) :: ps) <$> build_goal_at boxes locations rest
    | _ => Except.error "Each goal.box-at entry must be a pair [box, location]"

/-- The goal.clear loop of `load_ProblemSpec`. -/
def build_goal_clear (boxes locations : List String) :
    List J → Except String (List String)
  | [] => Except.ok []
  | v :: rest =>
    match v with
    | J.str s =>
        if boxes.contains s || locations.contains s then
          (fun ns => s :: ns) <$> build_goal_clear boxes locations rest
        else
          Except.error ("goal.clear box or location must be a box or location; got \"" ++ s ++ "\"")
    | _ => Except.error "Each goal.clear entry must be a box or location name"

/-- The list of places every declared box must appear exactly once in:
the held box (if any) followed by all stack members (`used` in
`validate_spec`). -/
def used_boxes (spec : ProblemSpec) : List String :=
  (match spec.holding with
   | some b => [b]
   | none => []) ++ (spec.stacks'.map Prod.snd).flatten

/-- The duplicated names among `used_boxes` (Python set comprehension
`{b for b in used if used.count(b) > 1}`, as a deduplicated list). -/
def dupes_of (spec : ProblemSpec) : List String :=
  ((used_boxes spec).filter (fun b => decide (1 < (used_boxes spec).count b))).dedup

/-- The declared boxes missing from `used_boxes` (Python `box_set - set(used)`,
as a deduplicated list). -/
def missing_of (spec : ProblemSpec) : List String :=
  (spec.boxes.filter (fun b => !((used_boxes spec).contains b))).dedup

/-- Source `validate_spec`: the box-placement completeness/uniqueness
invariant, checked after loading.  Order: duplicates across holding∪stacks,
then missing boxes, then per-stack duplicates. -/
def validate_spec (spec : ProblemSpec) : Except String Unit :=
  if !(dupes_of spec).isEmpty then
    Except.error ("Each box must appear exactly once across holding and stacks. Duplicates: "
      ++ pyListRepr (sortStrings (dupes_of spec)))
  else if !(missing_of spec).isEmpty then
    Except.error ("Each box must appear in holding or in some stack. Missing: "
      ++ pyListRepr (sortStrings (missing_of spec)))
  else
    match spec.stacks'.find? (fun p => p.2.dedup.length != p.2.length) with
    | some p =>
        Except.error ("Stack at location \"" ++ p.1 ++ "\" contains duplicate box names: "
          ++ pyListRepr p.2)
    | none => Except.ok ()

/-- The `problem_name` check of `load_ProblemSpec`. -/
def parse_problem_name (kvs : List (String × J)) : Except String String :=
  match (alookup kvs "problem_name").getD J.null with
  | J.str s =>
      if s.data.isEmpty then Except.error "\"problem_name\" must be a non-empty string"
      else Except.ok s
  | _ => Except.error "\"problem_name\" must be a non-empty string"

/-- The `initial_state.robot_at` check of `load_ProblemSpec`. -/
def parse_robot_at (init : List (String × J)) (locations : List String) :
    Except String String :=
  match (alookup init "robot_at").getD J.null with
  | J.str s =>
      if locations.contains s then Except.ok s
      else Except.error ("initial_state.robot_at=\"" ++ s ++ "\" is not in locations")
  | v => Except.error ("initial_state.robot_at=\"" ++ jShow v ++ "\" is not in locations")

/-- The `initial_state.holding` check of `load_ProblemSpec`. -/
def parse_holding (init : List (String × J)) (boxes : List String) :
    Except String (Option String) :=
  match (alookup init "holding").getD J.null with
  | J.null => Except.ok none
  | J.str s =>
      if s.data.isEmpty then Except.error "initial_state.holding must be a box name string or null"
      else if boxes.contains s then Except.ok (some s)
      else Except.error ("initial_state.holding=\"" ++ s ++ "\" is not in boxes")
  | _ => Except.error "initial_state.holding must be a box name string or null"

/-- The `initial_state.stacks` field of `load_ProblemSpec`: shape check plus
the per-stack normalization loop. -/
def parse_stacks_field (init : List (String × J)) (locations boxes : List String) :
    Except String (List (String × List String)) :=
  match (alookup init "stacks").getD J.null with
  | J.obj m => build_stacks locations boxes m
  | _ => Except.error "initial_state.stacks must be an object mapping location -> list-of-boxes (top->bottom)"

/-- The `forbidden_stack` field of `load_ProblemSpec`. -/
def parse_forbidden (kvs : List (String × J)) (boxes : List String) :
    Except String (List (String × String)) :=
  match (alookup kvs "forbidden_stack").getD (J.arr []) with
  | J.null => Except.ok []
  | J.arr pairs => build_pairs boxes pairs
  | _ => Except.error "\"forbidden_stack\" must be a list of [top,bottom] pairs"

/-- The `goal.on` field of `load_ProblemSpec`. -/
def parse_goal_on_field (g : List (String × J)) (boxes locations : List String) :
    Except String (List (String × String)) :=
  match (alookup g "on").getD (J.arr []) with
  | J.null => Except.ok []
  | J.arr ps => build_goal_on boxes locations ps
  | _ => Except.error "goal.on must be a list of [top, support] pairs"

/-- The `goal.box-at` field of `load_ProblemSpec`. -/
def parse_goal_at_field (g : List (String × J)) (boxes locations : List String) :
    Except String (List (String × String)) :=
  match (alookup g "box-at").getD (J.arr []) with
  | J.null => Except.ok []
  | J.arr ps => build_goal_at boxes locations ps
  | _ => Except.error "goal.box-at must be a list of [box, location] pairs"

/-- The `goal.clear` field of `load_ProblemSpec`. -/
def parse_goal_clear_field (g : List (String × J)) (boxes locations : List String) :
    Except String (List String) :=
  match (alookup g "clear").getD (J.arr []) with
  | J.null => Except.ok []
  | J.arr vs => build_goal_clear boxes locations vs
  | _ => Except.error "goal.clear must be a list of boxes and locations"

/-- The `goal.pddl` field of `load_ProblemSpec` (source message typo kept). -/
def parse_goal_pddl_field (g : List (String × J)) : Except String (List String) :=
  match (alookup g "pddl").getD (J.arr []) with
  | J.null => Except.ok []
  | J.arr xs =>
      if xs.all (fun v => match v with | J.str _ => true | _ => false) then Except.ok (xs.map jStr)
      else Except.error "goal.pddl must be a list of strings, ech a PDDL formula"
  | _ => Except.error "goal.pddl must be a list of strings, ech a PDDL formula"

/-- Source `load_ProblemSpec`, minus the file read: normalize and check a raw
JSON value into a `ProblemSpec`, in the source's exact check order.  CPython
raises `TypeError` on a non-dict top level; that is modelled as an error.
CPython checks only the list shape of `goal.pddl` and would fail later while
rendering non-string fragments; that deferred failure is modelled as a load
error with the source's (typo included) message. -/
def load_ProblemSpec (data : J) : Except String ProblemSpec := do
  let kvs ← match data with
    | J.obj kvs => pure kvs
    | _ => throw "top-level value must be an object"
  let _ ← match (["problem_name", "locations", "boxes", "initial_state", "goal"].find?
      (fun k => !(akey kvs k))) with
    | some k => throw ("Missing required top-level field: " ++ k)
    | none => pure ()
  let pname ← parse_problem_name kvs
  let (locations, loc_props) ← parse_named_objects ((alookup kvs "locations").getD J.null) "locations"
  let (boxes, box_props) ← parse_named_objects ((alookup kvs "boxes").getD J.null) "boxes"
  let init ← match (alookup kvs "initial_state").getD J.null with
    | J.obj m => pure m
    | _ => throw "\"initial_state\" must be an object"
  let _ ← if akey init "robot_at" then pure ()
          else throw "Missing required field: initial_state.robot_at"
  let robot_at ← parse_robot_at init locations
  let holding_box ← parse_holding init boxes
  let _ ← if akey init "stacks" then pure ()
          else throw "Missing required field: initial_state.stacks"
  let stacks' ← parse_stacks_field init locations boxes
  let forbidden_stack ← parse_forbidden kvs boxes
  let goal ← match (alookup kvs "goal").getD J.null with
    | J.obj g => pure g
    | _ => throw "\"goal\" must be an object"
  let goal_on ← parse_goal_on_field goal boxes locations
  let goal_at ← parse_goal_at_field goal boxes locations
  let goal_clear ← parse_goal_clear_field goal boxes locations
  let goal_pddl ← parse_goal_pddl_field goal
  let spec : ProblemSpec :=
    { problem_name := pname
      locations := locations
      boxes := boxes
      loc_props := loc_props
      box_props := box_props
      robot_at := robot_at
      holding := holding_box
      stacks' := stacks'
      forbidden_stack := forbidden_stack
      goal_on := goal_on
      goal_at := goal_at
      goal_clear := goal_clear
      goal_pddl := goal_pddl }
  let _ ← validate_spec spec
  pure spec

/-- The facts one loop iteration of `color_facts` appends for one entry:
`pr.get("color")` compared against the two recognized values. -/
def color_fact_of (name : String) (pr : Props) : List String :=
  match alookup pr "color" with
  | some (J.str c) =>
      if c = "black" then [atom "black" [name]]
      else if c = "white" then [atom "white" [name]]
      else []
  | _ => []

/-- Source `color_facts`: one `black`/`white` fact per entry whose property
bag maps `"color"` to a recognized value (the `isinstance(pr, dict)` guard of
the source is always true here, properties being dicts by construction). -/
def color_facts : List (String × Props) → List String
  | [] => []
  | (name, pr) :: rest => color_fact_of name pr ++ color_facts rest

/-- Whether a property bag carries `color = "black"`. -/
def isBlackProp (pr : Props) : Bool :=
  match alookup pr "color" with
  | some (J.str c) => c == "black"
  | _ => false

/-- Whether a property bag carries `color = "white"`. -/
def isWhiteProp (pr : Props) : Bool :=
  match alookup pr "color" with
  | some (J.str c) => c == "white"
  | _ => false

/-- Python `merged.update(...)` applied to two dicts: keys of `base` keep
their positions (values overridden by `upd` where present), new keys of `upd`
are appended in order. -/
def dict_update (base upd : List (String × Props)) : List (String × Props) :=
  base.map (fun p =>
    match alookup upd p.1 with
    | some w => (p.1, w)
    | none => p)
  ++ upd.filter (fun q => !(akey base q.1))

/-- The on-relations of one stack, top→bottom: `on` between adjacent boxes and
`on(bottom, location)` last (the source's single-box branch produces the same
facts as the general branch and is merged here). -/
def on_chain (l : String) : List String → List String
  | [] => []
  | [b] => [atom "on" [b, l]]
  | b1 :: b2 :: rest => atom "on" [b1, b2] :: on_chain l (b2 :: rest)

/-- The facts contributed by one entry of the stacks dict: `box-at` for every
member, the `on` chain, and `clear` for the top box; empty stacks contribute
nothing. -/
def stack_facts (l : String) : List String → List String
  | [] => []
  | b :: rest =>
    (b :: rest).map (fun bb => atom "box-at" [bb, l])
      ++ on_chain l (b :: rest)
      ++ [atom "clear" [b]]

/-- The locations accumulated in `occupied_locations` by the stacks loop of
`init_facts`: keys of non-empty stacks. -/
def occupied_locations (stacks' : List (String × List String)) : List String :=
  (stacks'.filter (fun p => !p.2.isEmpty)).map Prod.fst

/-- The hand-state fact: `hands-empty` or `holding(box)`. -/
def hand_facts : Option String → List String
  | none => [atom "hands-empty" []]
  | some b => [atom "holding" [b]]

/-- Source `init_facts`: robot position, hand state, colors of the merged
location/box property maps, forbidden pairs, per-stack facts, and `clear` for
every unoccupied declared location. -/
def init_facts (spec : ProblemSpec) : List String :=
  [atom "robot-at" [spec.robot_at]]
  ++ hand_facts spec.holding
  ++ color_facts (dict_update spec.loc_props spec.box_props)
  ++ spec.forbidden_stack.map (fun p => atom "forbidden-stack" [p.1, p.2])
  ++ (spec.stacks'.map (fun p => stack_facts p.1 p.2)).flatten
  ++ (spec.locations.filter
        (fun l => !((occupied_locations spec.stacks').contains l))).map
      (fun l => atom "clear" [l])

/-- The goal conjuncts in the order `goal_formula` collects them: `on` atoms,
then `box-at`, then `clear`, then the raw `pddl` fragments verbatim. -/
def goalAtoms (spec : ProblemSpec) : List String :=
  spec.goal_on.map (fun p => atom "on" [p.1, p.2])
    ++ spec.goal_at.map (fun p => atom "box-at" [p.1, p.2])
    ++ spec.goal_clear.map (fun n => atom "clear" [n])
    ++ spec.goal_pddl

/-- Source `goal_formula`: the collected goal atoms combined by
`and_formula`. -/
def goal_formula (spec : ProblemSpec) : String :=
  and_formula (goalAtoms spec)

/-- The lines of the emitted PDDL problem (source `emit_pddl_problem` before
the final join; the dataclass always carries lists, so the `isinstance`
branches on `locations`/`boxes` take the list copy). -/
def emit_lines (spec : ProblemSpec) : List String :=
  ["(define (problem " ++ spec.problem_name ++ ")",
   "  (:domain BOX-WORLD)",
   "  (:objects " ++ joinSpace spec.boxes ++ " - box\n          "
     ++ joinSpace spec.locations ++ " - location)",
   "  (:init"]
  ++ (sortStrings (init_facts spec)).map (fun f => "    " ++ f)
  ++ ["  )",
      "  (:goal " ++ goal_formula spec ++ ")",
      ")"]

/-- Source `emit_pddl_problem`: the full problem text. -/
def emit_pddl_problem (spec : ProblemSpec) : String :=
  joinNl (emit_lines spec)

/-- The `(:init ...)` block of the emitted problem: the header line, one
indented line per lexicographically sorted fact, and the closing line. -/
def init_block (spec : ProblemSpec) : String :=
  joinNl ("  (:init" :: (sortStrings (init_facts spec)).map (fun f => "    " ++ f) ++ ["  )"])

/-- The whitespace class of Python's `str.strip()` / `str.split()` and of the
regex `\s` on str patterns: the characters with `str.isspace()` true — the
ASCII whitespace, the separator controls U+001C–U+001F, NEL, NBSP, and the
Unicode space separators. -/
def isPySpace (c : Char) : Bool :=
  c = ' ' || c = '\t' || c = '\n' || c = '\r' || c = '\x0b' || c = '\x0c'
    || (28 ≤ c.toNat && c.toNat ≤ 31) || c = '\x85' || c = '\xa0' || c = '\u1680'
    || (8192 ≤ c.toNat && c.toNat ≤ 8202) || c = '\u2028' || c = '\u2029'
    || c = '\u202f' || c = '\u205f' || c = '\u3000'

/-- Python `str.strip()` on the character list of a line. -/
def pyStrip (l : List Char) : List Char :=
  ((l.dropWhile isPySpace).reverse.dropWhile isPySpace).reverse

/-- The accumulator loop of `pySplit`. -/
def pySplitAux : List Char → List Char → List (List Char)
  | [], cur => if cur.isEmpty then [] else [cur.reverse]
  | c :: rest, cur =>
    if isPySpace c then
      if cur.isEmpty then pySplitAux rest [] else cur.reverse :: pySplitAux rest []
    else pySplitAux rest (c :: cur)

/-- Python `str.split()` with no separator: split on whitespace runs,
discarding empty tokens. -/
def pySplit (l : List Char) : List (List Char) := pySplitAux l []

/-- The line-boundary characters of Python `str.splitlines()`: LF, CR, VT,
FF, FS, GS, RS, NEL, and the Unicode line/paragraph separators (`\r\n` is
additionally treated as a single boundary by `splitLinesAux`). -/
def isLineBreak (c : Char) : Bool :=
  c = '\n' || c = '\r' || c = '\x0b' || c = '\x0c' || c = '\x1c' || c = '\x1d'
    || c = '\x1e' || c = '\x85' || c = '\u2028' || c = '\u2029'

/-- The accumulator loop of `splitLines`: `\r\n` is one boundary, any other
line-break character ends the current line, and a trailing line break opens
no empty final line. -/
def splitLinesAux : List Char → List Char → List (List Char)
  | [], cur => if cur.isEmpty then [] else [cur.reverse]
  | '\r' :: '\n' :: rest, cur => cur.reverse :: splitLinesAux rest []
  | c :: rest, cur =>
    if isLineBreak c then cur.reverse :: splitLinesAux rest []
    else splitLinesAux rest (c :: cur)

/-- Python `str.splitlines()`. -/
def splitLines (l : List Char) : List (List Char) := splitLinesAux l []

/-- ASCII digit test, the regex class `[0-9]`. -/
def isDigitChar (c : Char) : Bool := decide ('0' ≤ c) && decide (c ≤ '9')

/-- Python `int` on a non-empty digit string. -/
def digitsToNat (l : List Char) : Nat :=
  l.foldl (fun acc c => acc * 10 + (c.toNat - Char.toNat '0')) 0

/-- One anchored attempt of the regex `cost\s*=\s*([0-9]+)` at the current
position: the literal `cost`, optional whitespace, `=`, optional whitespace,
then a maximal non-empty digit run (group 1). -/
def matchCostAt : List Char → Option Nat
  | 'c' :: 'o' :: 's' :: 't' :: rest =>
    (match rest.dropWhile isPySpace with
     | '=' :: rest2 =>
       let digits := (rest2.dropWhile isPySpace).takeWhile isDigitChar
       if digits.isEmpty then none else some (digitsToNat digits)
     | _ => none)
  | _ => none

/-- Python `re.search(r"cost\s*=\s*([0-9]+)", line)`: the leftmost position
where the pattern matches, returning `int(m.group(1))`. -/
def searchCost : List Char → Option Nat
  | [] => none
  | c :: rest =>
    match matchCostAt (c :: rest) with
    | some n => some n
    | none => searchCost rest

/-- One parsed plan step: the action name and its ordered arguments (the
source returns the one-entry dict `{action: args}`). -/
abbrev Step := String × List String

/-- Source `parse_action_atom`: strip, require balanced outer parentheses,
strip the inside, reject an empty atom, split on whitespace into the action
name and arguments.  (The final empty-token case cannot occur: the stripped
inside is non-empty and starts with a non-space.) -/
def parse_action_atom (line : List Char) : Except String Step :=
  let stripped := pyStrip line
  if !((stripped.head? == some '(') && (stripped.getLast? == some ')')) then
    Except.error ("Not a valid PDDL atom: " ++ String.mk stripped)
  else
    let inner := pyStrip (stripped.drop 1).dropLast
    if inner.isEmpty then Except.error ("Empty PDDL atom: " ++ String.mk stripped)
    else
      match pySplit inner with
      | [] => Except.error ("Empty PDDL atom: " ++ String.mk stripped)
      | tok :: args => Except.ok (String.mk tok, args.map String.mk)

/-- The per-line loop of `parse_fd_plan_text`: blank lines are skipped,
comment lines are scanned for a cost (later matches overwrite earlier ones),
lines wrapped in parentheses are parsed as action atoms, and any other line
is silently ignored (the source's explicit `pass` branch). -/
def parse_plan_lines : List (List Char) → Option Nat → Except String (List Step × Option Nat)
  | [], cost => Except.ok ([], cost)
  | raw :: rest, cost =>
    let line := pyStrip raw
    if line.isEmpty then parse_plan_lines rest cost
    else if line.head? == some ';' then
      match searchCost line with
      | some n => parse_plan_lines rest (some n)
      | none => parse_plan_lines rest cost
    else if (line.head? == some '(') && (line.getLast? == some ')') then
      match parse_action_atom line with
      | Except.error e => Except.error e
      | Except.ok step =>
        match parse_plan_lines rest cost with
        | Except.error e => Except.error e
        | Except.ok (steps, c) => Except.ok (step :: steps, c)
    else parse_plan_lines rest cost

/-- Source `parse_fd_plan_text`: parse a Fast Downward plan file into ordered
steps and an optional cost. -/
def parse_fd_plan_text (t : String) : Except String (List Step × Option Nat) :=
  parse_plan_lines (splitLines t.data) none

/-- Whether two character lists differ at some position covered by both: if
so, no pair of continuations can make their concatenations equal. -/
def divergesAt : List Char → List Char → Bool
  | a :: as, b :: bs => if a = b then divergesAt as bs else true
  | _, _ => false

/-- The cost values carried by the comment lines of a plan text, in line
order: the specification-side description of what the cost scan collects. -/
def comment_costs (lines : List (List Char)) : List Nat :=
  lines.filterMap (fun raw =>
    if (pyStrip raw).head? == some ';' then searchCost (pyStrip raw) else none)

/-- A valid raw input whose single stack holds one box named like the other,
empty, location: boxes and locations may share names. -/
def c2_cex_input : J := J.obj [
  ("problem_name", J.str "p"),
  ("locations", J.arr [J.str "a", J.str "b"]),
  ("boxes", J.arr [J.str "b"]),
  ("initial_state", J.obj [
    ("robot_at", J.str "a"),
    ("stacks", J.obj [("a", J.arr [J.str "b"])])]),
  ("goal", J.obj [])]

/-- The specification `load_ProblemSpec` produces from `c2_cex_input`. -/
def c2_cex_spec : ProblemSpec :=
  { problem_name := "p"
    locations := ["a", "b"]
    boxes := ["b"]
    loc_props := [("a", []), ("b", [])]
    box_props := [("b", [])]
    robot_at := "a"
    holding := none
    stacks' := [("a", ["b"])]
    forbidden_stack := []
    goal_on := []
    goal_at := []
    goal_clear := []
    goal_pddl := [] }

/-- A valid raw input in mapping shape where a location and a box share the
name `a`; only the location declares a color. -/
def c4_cex_input : J := J.obj [
  ("problem_name", J.str "p"),
  ("locations", J.obj [("a", J.obj [("color", J.str "black")])]),
  ("boxes", J.obj [("a", J.null)]),
  ("initial_state", J.obj [
    ("robot_at", J.str "a"),
    ("stacks", J.obj [("a", J.arr [J.str "a"])])]),
  ("goal", J.obj [])]

/-- The specification `load_ProblemSpec` produces from `c4_cex_input`. -/
def c4_cex_spec : ProblemSpec :=
  { problem_name := "p"
    locations := ["a"]
    boxes := ["a"]
    loc_props := [("a", [("color", J.str "black")])]
    box_props := [("a", [])]
    robot_at := "a"
    holding := none
    stacks' := [("a", ["a"])]
    forbidden_stack := []
    goal_on := []
    goal_at := []
    goal_clear := []
    goal_pddl := [] }

/-- A raw input with both a stack-internal duplicate box and a goal that
references the undeclared name `zzz`. -/
def c6_cex_input : J := J.obj [
  ("problem_name", J.str "p"),
  ("locations", J.arr [J.str "l1"]),
  ("boxes", J.arr [J.str "b1"]),
  ("initial_state", J.obj [
    ("robot_at", J.str "l1"),
    ("stacks", J.obj [("l1", J.arr [J.str "b1", J.str "b1"])])]),
  ("goal", J.obj [("on", J.arr [J.arr [J.str "zzz", J.str "l1"]])])]

/-- The input `c6_cex_input` with the offending goal entry removed: only the
stack-internal duplicate remains. -/
def c6_cex_input_goal_fixed : J := J.obj [
  ("problem_name", J.str "p"),
  ("locations", J.arr [J.str "l1"]),
  ("boxes", J.arr [J.str "b1"]),
  ("initial_state", J.obj [
    ("robot_at", J.str "l1"),
    ("stacks", J.obj [("l1", J.arr [J.str "b1", J.str "b1"])])]),
  ("goal", J.obj [])]

/-- A valid raw input whose locations list declares the same name twice
(list-shaped declarations are not deduplicated). -/
def c8_cex_input : J := J.obj [
  ("problem_name", J.str "p"),
  ("locations", J.arr [J.str "a", J.str "a"]),
  ("boxes", J.arr []),
  ("initial_state", J.obj [
    ("robot_at", J.str "a"),
    ("stacks", J.obj [])]),
  ("goal", J.obj [])]

/-- The specification `load_ProblemSpec` produces from `c8_cex_input`. -/
def c8_cex_spec : ProblemSpec :=
  { problem_name := "p"
    locations := ["a", "a"]
    boxes := []
    loc_props := [("a", [])]
    box_props := []
    robot_at := "a"
    holding := none
    stacks' := []
    forbidden_stack := []
    goal_on := []
    goal_at := []
    goal_clear := []
    goal_pddl := [] }

/-- Concrete specification used to instantiate the C1 determinism theorem:
the same declarations as `c1_wit_spec2` in a different input order. -/
def c1_wit_spec1 : ProblemSpec :=
  { problem_name := "w"
    locations := ["l1", "l2"]
    boxes := ["b1"]
    loc_props := [("l1", []), ("l2", [("color", J.str "white")])]
    box_props := [("b1", [("color", J.str "black")])]
    robot_at := "l1"
    holding := none
    stacks' := [("l1", ["b1"])]
    forbidden_stack := []
    goal_on := []
    goal_at := []
    goal_clear := []
    goal_pddl := [] }

/-- The specification `c1_wit_spec1` with its locations and property maps listed in the
opposite order. -/
def c1_wit_spec2 : ProblemSpec :=
  { problem_name := "w"
    locations := ["l2", "l1"]
    boxes := ["b1"]
    loc_props := [("l2", [("color", J.str "white")]), ("l1", [])]
    box_props := [("b1", [("color", J.str "black")])]
    robot_at := "l1"
    holding := none
    stacks' := [("l1", ["b1"])]
    forbidden_stack := []
    goal_on := []
    goal_at := []
    goal_clear := []
    goal_pddl := [] }

/-- Concrete two-box-stack specification used to instantiate the C2 counting
theorem. -/
def c2_wit_spec : ProblemSpec :=
  { problem_name := "w"
    locations := ["l1", "l2"]
    boxes := ["b1", "b2"]
    loc_props := [("l1", []), ("l2", [])]
    box_props := [("b1", []), ("b2", [])]
    robot_at := "l2"
    holding := none
    stacks' := [("l1", ["b1", "b2"])]
    forbidden_stack := []
    goal_on := []
    goal_at := []
    goal_clear := []
    goal_pddl := [] }

/-- Concrete specification used to instantiate the C4 color-fact theorem: a
white location, and a box with an unrecognized color value. -/
def c4_wit_spec : ProblemSpec :=
  { problem_name := "w"
    locations := ["l1"]
    boxes := ["b1"]
    loc_props := [("l1", [("color", J.str "white")])]
    box_props := [("b1", [("color", J.str "chartreuse")])]
    robot_at := "l1"
    holding := none
    stacks' := [("l1", ["b1"])]
    forbidden_stack := []
    goal_on := []
    goal_at := []
    goal_clear := []
    goal_pddl := [] }

/-- Concrete specification used to instantiate the C5 goal-formula theorem. -/
def c5_wit_spec : ProblemSpec :=
  { problem_name := "w"
    locations := ["l1"]
    boxes := ["b1", "b2"]
    loc_props := [("l1", [])]
    box_props := [("b1", []), ("b2", [])]
    robot_at := "l1"
    holding := none
    stacks' := [("l1", ["b1", "b2"])]
    forbidden_stack := []
    goal_on := [("b1", "b2")]
    goal_at := []
    goal_clear := ["c1"]
    goal_pddl := [] }

/-- Concrete specification used to instantiate the C7 validation theorem: one
box held, the other stacked. -/
def c7_wit_spec : ProblemSpec :=
  { problem_name := "w"
    locations := ["l1"]
    boxes := ["b1", "b2"]
    loc_props := [("l1", [])]
    box_props := [("b1", []), ("b2", [])]
    robot_at := "l1"
    holding := some "b1"
    stacks' := [("l1", ["b2"])]
    forbidden_stack := []
    goal_on := []
    goal_at := []
    goal_clear := []
    goal_pddl := [] }

/-- Concrete specification used to instantiate the C8 clear-fact theorem: one
occupied and one empty location. -/
def c8_wit_spec : ProblemSpec :=
  { problem_name := "w"
    locations := ["l1", "l2"]
    boxes := ["b1"]
    loc_props := [("l1", []), ("l2", [])]
    box_props := [("b1", [])]
    robot_at := "l1"
    holding := none
    stacks' := [("l1", ["b1"])]
    forbidden_stack := []
    goal_on := []
    goal_at := []
    goal_clear := []
    goal_pddl := [] }

/-- Concrete specification with a duplicated box declaration, used to
instantiate the C10 object-emission theorem. -/
def c10_wit_spec : ProblemSpec :=
  { problem_name := "w"
    locations := ["l1"]
    boxes := ["b1", "b1"]
    loc_props := [("l1", [])]
    box_props := [("b1", [])]
    robot_at := "l1"
    holding := none
    stacks' := []
    forbidden_stack := []
    goal_on := []
    goal_at := []
    goal_clear := []
    goal_pddl := [] }
theorem strLe_total_aux : ∀ x y : List Char, strLe x y = true ∨ strLe y x = true := by
  intro x
  induction x with
  | nil => intro y; left; rfl
  | cons a as ih =>
    intro y
    cases y with
    | nil => right; rfl
    | cons b bs =>
      by_cases hab : a = b
      · subst hab
        rcases ih bs with h | h
        · left; simpa [strLe] using h
        · right; simpa [strLe] using h
      · rcases lt_trichotomy a b with h | h | h
        · left; simp [strLe, hab, h]
        · exact absurd h hab
        · right; simp [strLe, Ne.symm hab, h, not_lt_of_gt h]

theorem strLe_trans_aux :
    ∀ x y z : List Char, strLe x y = true → strLe y z = true → strLe x z = true := by
  intro x
  induction x with
  | nil => intro y z _ _; rfl
  | cons a as ih =>
    intro y z hxy hyz
    cases y with
    | nil => simp [strLe] at hxy
    | cons b bs =>
      cases z with
      | nil => simp [strLe] at hyz
      | cons c cs =>
        by_cases hab : a = b <;> by_cases hbc : b = c
        · subst hab; subst hbc
          simp only [strLe, if_pos rfl] at hxy hyz ⊢
          exact ih bs cs hxy hyz
        · subst hab
          simp only [strLe, if_pos rfl] at hxy
          simpa [strLe, hbc] using hyz
        · subst hbc
          simpa [strLe, hab] using hxy
        · simp only [strLe, if_neg hab] at hxy
          simp only [strLe, if_neg hbc] at hyz
          have h1 : a < b := of_decide_eq_true hxy
          have h2 : b < c := of_decide_eq_true hyz
          have hac : a < c := lt_trans h1 h2
          simp [strLe, ne_of_lt hac, hac]

theorem strLe_antisymm_aux :
    ∀ x y : List Char, strLe x y = true → strLe y x = true → x = y := by
  intro x
  induction x with
  | nil =>
    intro y _ hyx
    cases y with
    | nil => rfl
    | cons b bs => simp [strLe] at hyx
  | cons a as ih =>
    intro y hxy hyx
    cases y with
    | nil => simp [strLe] at hxy
    | cons b bs =>
      by_cases hab : a = b
      · subst hab
        simp only [strLe, if_pos rfl] at hxy hyx
        rw [ih bs hxy hyx]
      · simp only [strLe, if_neg hab] at hxy
        simp only [strLe, if_neg (Ne.symm hab)] at hyx
        have h1 : a < b := of_decide_eq_true hxy
        have h2 : b < a := of_decide_eq_true hyx
        exact absurd h2 (lt_asymm h1)

instance : IsTotal String pyLe :=
  ⟨fun s t => strLe_total_aux s.data t.data⟩

instance : IsTrans String pyLe :=
  ⟨fun _ _ _ h1 h2 => strLe_trans_aux _ _ _ h1 h2⟩

instance : IsAntisymm String pyLe :=
  ⟨fun s t h1 h2 => String.ext (strLe_antisymm_aux s.data t.data h1 h2)⟩


/-! ### Infrastructure lemmas on atoms, counts and association lists -/

theorem joinSpace_pair_data (a b : String) :
    (joinSpace [a, b]).data = a.data ++ ' ' :: b.data := by
  simp [joinSpace, String.data_append]

theorem atom_data_cons (p a : String) (args : List String) :
    (atom p (a :: args)).data
      = ('(' :: p.data ++ [' ']) ++ ((joinSpace (a :: args)).data ++ [')']) := by
  simp [atom, String.data_append]

theorem atom_data_nil (p : String) :
    (atom p []).data = ('(' :: p.data ++ [')']) ++ [] := by
  simp [atom, String.data_append]

theorem ne_of_divergesAt :
    ∀ {u v : List Char}, divergesAt u v = true → ∀ (x y : List Char), u ++ x ≠ v ++ y := by
  intro u
  induction u with
  | nil => intro v h; simp [divergesAt] at h
  | cons a as ih =>
    intro v h x y
    cases v with
    | nil => simp [divergesAt] at h
    | cons b bs =>
      by_cases hab : a = b
      · subst hab
        simp only [divergesAt, if_pos rfl] at h
        intro heq
        simp only [List.cons_append, List.cons.injEq, true_and] at heq
        exact ih h x y heq
      · intro heq
        simp only [List.cons_append, List.cons.injEq] at heq
        exact hab heq.1

theorem atom_ne_of_divergesAt {p q : String} (a : String) (as : List String)
    (b : String) (bs : List String)
    (h : divergesAt ('(' :: p.data ++ [' ']) ('(' :: q.data ++ [' ']) = true) :
    atom p (a :: as) ≠ atom q (b :: bs) := by
  intro heq
  have hd := congrArg String.data heq
  rw [atom_data_cons, atom_data_cons] at hd
  exact ne_of_divergesAt h _ _ hd

theorem atom_ne_nilargs_of_divergesAt {p q : String} (a : String) (as : List String)
    (h : divergesAt ('(' :: p.data ++ [' ']) ('(' :: q.data ++ [')']) = true) :
    atom p (a :: as) ≠ atom q [] := by
  intro heq
  have hd := congrArg String.data heq
  rw [atom_data_cons, atom_data_nil] at hd
  exact ne_of_divergesAt h _ _ hd

theorem atom1_inj {p a b : String} (h : atom p [a] = atom p [b]) : a = b := by
  have hd := congrArg String.data h
  rw [atom_data_cons, atom_data_cons] at hd
  have h2 := List.append_cancel_left hd
  have h3 : (joinSpace [a]).data = (joinSpace [b]).data := List.append_cancel_right h2
  simpa [joinSpace] using String.ext h3

theorem no_space_sep_inj :
    ∀ {a c x y : List Char}, (' ' ∉ a) → (' ' ∉ c) →
      a ++ ' ' :: x = c ++ ' ' :: y → a = c ∧ x = y := by
  intro a
  induction a with
  | nil =>
    intro c x y _ hc h
    cases c with
    | nil => simpa using h
    | cons ch cs =>
      simp only [List.nil_append, List.cons_append, List.cons.injEq] at h
      exact absurd (h.1 ▸ List.mem_cons_self ch cs) hc
  | cons ah asl ih =>
    intro c x y ha hc h
    cases c with
    | nil =>
      simp only [List.cons_append, List.nil_append, List.cons.injEq] at h
      exact absurd (h.1 ▸ List.mem_cons_self ah asl) ha
    | cons ch cs =>
      simp only [List.cons_append, List.cons.injEq] at h
      obtain ⟨h1, h2⟩ := h
      have ha' : ' ' ∉ asl := fun hm => ha (List.mem_cons_of_mem _ hm)
      have hc' : ' ' ∉ cs := fun hm => hc (List.mem_cons_of_mem _ hm)
      obtain ⟨he, hx⟩ := ih ha' hc' h2
      exact ⟨by rw [h1, he], hx⟩

theorem atom2_inj {p a b c d : String} (ha : ' ' ∉ a.data) (hc : ' ' ∉ c.data)
    (h : atom p [a, b] = atom p [c, d]) : a = c ∧ b = d := by
  have hd := congrArg String.data h
  rw [atom_data_cons, atom_data_cons, joinSpace_pair_data, joinSpace_pair_data] at hd
  have h2 := List.append_cancel_left hd
  rw [List.append_assoc, List.append_assoc] at h2
  have h3 : b.data ++ [')'] = d.data ++ [')'] → b = d := fun hh =>
    String.ext (List.append_cancel_right hh)
  obtain ⟨he, hx⟩ := no_space_sep_inj ha hc (by simpa using h2)
  exact ⟨String.ext he, h3 (by simpa using hx)⟩

theorem count_eq_zero_of_forall_ne {x : String} {l : List String}
    (h : ∀ y ∈ l, y ≠ x) : l.count x = 0 :=
  List.count_eq_zero.mpr (fun hm => (h x hm) rfl)

theorem count_map_eq_count {α : Type} [BEq α] [LawfulBEq α] (f : α → String) (l : List α) (a : α)
    (hinj : ∀ b ∈ l, f b = f a → b = a) : (l.map f).count (f a) = l.count a := by
  induction l with
  | nil => simp
  | cons x xs ih =>
    have hinj' : ∀ b ∈ xs, f b = f a → b = a := fun b hb => hinj b (List.mem_cons_of_mem _ hb)
    by_cases hxa : x = a
    · subst hxa
      simp [List.count_cons, ih hinj']
    · have hfx : f x ≠ f a := fun hf => hxa (hinj x (List.mem_cons_self _ _) hf)
      simp [List.count_cons, ih hinj', hxa, hfx]

theorem hand_facts_shapes {o : Option String} {f : String} (hf : f ∈ hand_facts o) :
    f = atom "hands-empty" [] ∨ ∃ b, f = atom "holding" [b] := by
  cases o with
  | none => left; simpa [hand_facts] using hf
  | some b => right; exact ⟨b, by simpa [hand_facts] using hf⟩

theorem color_fact_of_shapes {n : String} {pr : Props} {f : String}
    (hf : f ∈ color_fact_of n pr) :
    f = atom "black" [n] ∨ f = atom "white" [n] := by
  unfold color_fact_of at hf
  split at hf
  · split at hf
    · left; simpa using hf
    · split at hf
      · right; simpa using hf
      · simp at hf
  · simp at hf

theorem color_facts_shapes :
    ∀ {props : List (String × Props)} {f : String}, f ∈ color_facts props →
      ∃ n, f = atom "black" [n] ∨ f = atom "white" [n] := by
  intro props
  induction props with
  | nil => intro f hf; simp [color_facts] at hf
  | cons p rest ih =>
    intro f hf
    obtain ⟨n, pr⟩ := p
    rw [color_facts, List.mem_append] at hf
    rcases hf with hf | hf
    · exact ⟨n, color_fact_of_shapes hf⟩
    · exact ih hf

theorem on_chain_shapes {l : String} :
    ∀ {s : List String} {f : String}, f ∈ on_chain l s →
      ∃ x y, x ∈ s ∧ f = atom "on" [x, y] := by
  intro s
  induction s with
  | nil => intro f hf; simp [on_chain] at hf
  | cons b rest ih =>
    intro f hf
    cases rest with
    | nil =>
      rw [on_chain, List.mem_singleton] at hf
      exact ⟨b, l, List.mem_cons_self _ _, hf⟩
    | cons b2 r2 =>
      rw [on_chain, List.mem_cons] at hf
      rcases hf with hf | hf
      · exact ⟨b, b2, List.mem_cons_self _ _, hf⟩
      · obtain ⟨x, y, hx, hfy⟩ := ih hf
        exact ⟨x, y, List.mem_cons_of_mem _ hx, hfy⟩

theorem stack_facts_shapes {l : String} {s : List String} {f : String}
    (hf : f ∈ stack_facts l s) :
    (∃ b, b ∈ s ∧ f = atom "box-at" [b, l]) ∨ (∃ x y, x ∈ s ∧ f = atom "on" [x, y])
      ∨ (∃ b, b ∈ s ∧ f = atom "clear" [b]) := by
  cases s with
  | nil => simp [stack_facts] at hf
  | cons b rest =>
    rw [stack_facts, List.append_assoc, List.mem_append, List.mem_append] at hf
    rcases hf with hf | hf | hf
    · obtain ⟨bb, hbb, rfl⟩ := List.mem_map.mp hf
      exact Or.inl ⟨bb, hbb, rfl⟩
    · obtain ⟨x, y, hx, rfl⟩ := on_chain_shapes hf
      exact Or.inr (Or.inl ⟨x, y, hx, rfl⟩)
    · rw [List.mem_singleton] at hf
      exact Or.inr (Or.inr ⟨b, List.mem_cons_self _ _, hf⟩)

theorem stacks_section_shapes {sts : List (String × List String)} {f : String}
    (hf : f ∈ (sts.map (fun p => stack_facts p.1 p.2)).flatten) :
    ∃ p, p ∈ sts ∧ f ∈ stack_facts p.1 p.2 := by
  rw [List.mem_flatten] at hf
  obtain ⟨l, hl, hfl⟩ := hf
  obtain ⟨p, hp, rfl⟩ := List.mem_map.mp hl
  exact ⟨p, hp, hfl⟩

theorem on_chain_eq_zip (l : String) :
    ∀ s : List String,
      on_chain l s = (s.zip (s.tail ++ [l])).map (fun pr => atom "on" [pr.1, pr.2]) := by
  intro s
  induction s with
  | nil => rfl
  | cons b rest ih =>
    cases rest with
    | nil => rfl
    | cons b2 r2 =>
      rw [on_chain, ih]
      rfl

theorem count_init_boxat (spec : ProblemSpec) (b L : String) :
    (init_facts spec).count (atom "box-at" [b, L])
      = ((spec.stacks'.map (fun p => stack_facts p.1 p.2)).flatten).count (atom "box-at" [b, L]) := by
  have hrob : List.count (atom "box-at" [b, L]) [atom "robot-at" [spec.robot_at]] = 0 :=
    count_eq_zero_of_forall_ne (by
      intro y hy
      rw [List.mem_singleton] at hy
      subst hy
      exact atom_ne_of_divergesAt _ _ _ _ (by decide))
  have hhand : (hand_facts spec.holding).count (atom "box-at" [b, L]) = 0 :=
    count_eq_zero_of_forall_ne (by
      intro y hy
      rcases hand_facts_shapes hy with rfl | ⟨bb, rfl⟩
      · exact (atom_ne_nilargs_of_divergesAt _ _ (by decide)).symm
      · exact atom_ne_of_divergesAt _ _ _ _ (by decide))
  have hcol : (color_facts (dict_update spec.loc_props spec.box_props)).count
      (atom "box-at" [b, L]) = 0 :=
    count_eq_zero_of_forall_ne (by
      intro y hy
      rcases color_facts_shapes hy with ⟨n, rfl | rfl⟩
      · exact atom_ne_of_divergesAt _ _ _ _ (by decide)
      · exact atom_ne_of_divergesAt _ _ _ _ (by decide))
  have hforb : (spec.forbidden_stack.map (fun p => atom "forbidden-stack" [p.1, p.2])).count
      (atom "box-at" [b, L]) = 0 :=
    count_eq_zero_of_forall_ne (by
      intro y hy
      obtain ⟨p, _, rfl⟩ := List.mem_map.mp hy
      exact atom_ne_of_divergesAt _ _ _ _ (by decide))
  have hclr : ((spec.locations.filter
        (fun l => !((occupied_locations spec.stacks').contains l))).map
        (fun l => atom "clear" [l])).count (atom "box-at" [b, L]) = 0 :=
    count_eq_zero_of_forall_ne (by
      intro y hy
      obtain ⟨l, _, rfl⟩ := List.mem_map.mp hy
      exact atom_ne_of_divergesAt _ _ _ _ (by decide))
  simp only [init_facts, List.count_append, hrob, hhand, hcol, hforb, hclr]
  omega

theorem count_init_on (spec : ProblemSpec) (x y : String) :
    (init_facts spec).count (atom "on" [x, y])
      = ((spec.stacks'.map (fun p => stack_facts p.1 p.2)).flatten).count (atom "on" [x, y]) := by
  have hrob : List.count (atom "on" [x, y]) [atom "robot-at" [spec.robot_at]] = 0 :=
    count_eq_zero_of_forall_ne (by
      intro f hf
      rw [List.mem_singleton] at hf
      subst hf
      exact atom_ne_of_divergesAt _ _ _ _ (by decide))
  have hhand : (hand_facts spec.holding).count (atom "on" [x, y]) = 0 :=
    count_eq_zero_of_forall_ne (by
      intro f hf
      rcases hand_facts_shapes hf with rfl | ⟨bb, rfl⟩
      · exact (atom_ne_nilargs_of_divergesAt _ _ (by decide)).symm
      · exact atom_ne_of_divergesAt _ _ _ _ (by decide))
  have hcol : (color_facts (dict_update spec.loc_props spec.box_props)).count
      (atom "on" [x, y]) = 0 :=
    count_eq_zero_of_forall_ne (by
      intro f hf
      rcases color_facts_shapes hf with ⟨n, rfl | rfl⟩
      · exact atom_ne_of_divergesAt _ _ _ _ (by decide)
      · exact atom_ne_of_divergesAt _ _ _ _ (by decide))
  have hforb : (spec.forbidden_stack.map (fun p => atom "forbidden-stack" [p.1, p.2])).count
      (atom "on" [x, y]) = 0 :=
    count_eq_zero_of_forall_ne (by
      intro f hf
      obtain ⟨p, _, rfl⟩ := List.mem_map.mp hf
      exact atom_ne_of_divergesAt _ _ _ _ (by decide))
  have hclr : ((spec.locations.filter
        (fun l => !((occupied_locations spec.stacks').contains l))).map
        (fun l => atom "clear" [l])).count (atom "on" [x, y]) = 0 :=
    count_eq_zero_of_forall_ne (by
      intro f hf
      obtain ⟨l, _, rfl⟩ := List.mem_map.mp hf
      exact atom_ne_of_divergesAt _ _ _ _ (by decide))
  simp only [init_facts, List.count_append, hrob, hhand, hcol, hforb, hclr]
  omega

theorem count_init_clear (spec : ProblemSpec) (z : String) :
    (init_facts spec).count (atom "clear" [z])
      = ((spec.stacks'.map (fun p => stack_facts p.1 p.2)).flatten).count (atom "clear" [z])
        + ((spec.locations.filter
            (fun l => !((occupied_locations spec.stacks').contains l))).map
            (fun l => atom "clear" [l])).count (atom "clear" [z]) := by
  have hrob : List.count (atom "clear" [z]) [atom "robot-at" [spec.robot_at]] = 0 :=
    count_eq_zero_of_forall_ne (by
      intro f hf
      rw [List.mem_singleton] at hf
      subst hf
      exact atom_ne_of_divergesAt _ _ _ _ (by decide))
  have hhand : (hand_facts spec.holding).count (atom "clear" [z]) = 0 :=
    count_eq_zero_of_forall_ne (by
      intro f hf
      rcases hand_facts_shapes hf with rfl | ⟨bb, rfl⟩
      · exact (atom_ne_nilargs_of_divergesAt _ _ (by decide)).symm
      · exact atom_ne_of_divergesAt _ _ _ _ (by decide))
  have hcol : (color_facts (dict_update spec.loc_props spec.box_props)).count
      (atom "clear" [z]) = 0 :=
    count_eq_zero_of_forall_ne (by
      intro f hf
      rcases color_facts_shapes hf with ⟨n, rfl | rfl⟩
      · exact atom_ne_of_divergesAt _ _ _ _ (by decide)
      · exact atom_ne_of_divergesAt _ _ _ _ (by decide))
  have hforb : (spec.forbidden_stack.map (fun p => atom "forbidden-stack" [p.1, p.2])).count
      (atom "clear" [z]) = 0 :=
    count_eq_zero_of_forall_ne (by
      intro f hf
      obtain ⟨p, _, rfl⟩ := List.mem_map.mp hf
      exact atom_ne_of_divergesAt _ _ _ _ (by decide))
  simp only [init_facts, List.count_append, hrob, hhand, hcol, hforb]
  omega

theorem count_init_black (spec : ProblemSpec) (n : String) :
    (init_facts spec).count (atom "black" [n])
      = (color_facts (dict_update spec.loc_props spec.box_props)).count (atom "black" [n]) := by
  have hrob : List.count (atom "black" [n]) [atom "robot-at" [spec.robot_at]] = 0 :=
    count_eq_zero_of_forall_ne (by
      intro f hf
      rw [List.mem_singleton] at hf
      subst hf
      exact atom_ne_of_divergesAt _ _ _ _ (by decide))
  have hhand : (hand_facts spec.holding).count (atom "black" [n]) = 0 :=
    count_eq_zero_of_forall_ne (by
      intro f hf
      rcases hand_facts_shapes hf with rfl | ⟨bb, rfl⟩
      · exact (atom_ne_nilargs_of_divergesAt _ _ (by decide)).symm
      · exact atom_ne_of_divergesAt _ _ _ _ (by decide))
  have hforb : (spec.forbidden_stack.map (fun p => atom "forbidden-stack" [p.1, p.2])).count
      (atom "black" [n]) = 0 :=
    count_eq_zero_of_forall_ne (by
      intro f hf
      obtain ⟨p, _, rfl⟩ := List.mem_map.mp hf
      exact atom_ne_of_divergesAt _ _ _ _ (by decide))
  have hstk : ((spec.stacks'.map (fun p => stack_facts p.1 p.2)).flatten).count
      (atom "black" [n]) = 0 :=
    count_eq_zero_of_forall_ne (by
      intro f hf
      obtain ⟨p, _, hfp⟩ := stacks_section_shapes hf
      rcases stack_facts_shapes hfp with ⟨b, _, rfl⟩ | ⟨u, v, _, rfl⟩ | ⟨b, _, rfl⟩
      · exact atom_ne_of_divergesAt _ _ _ _ (by decide)
      · exact atom_ne_of_divergesAt _ _ _ _ (by decide)
      · exact atom_ne_of_divergesAt _ _ _ _ (by decide))
  have hclr : ((spec.locations.filter
        (fun l => !((occupied_locations spec.stacks').contains l))).map
        (fun l => atom "clear" [l])).count (atom "black" [n]) = 0 :=
    count_eq_zero_of_forall_ne (by
      intro f hf
      obtain ⟨l, _, rfl⟩ := List.mem_map.mp hf
      exact atom_ne_of_divergesAt _ _ _ _ (by decide))
  simp only [init_facts, List.count_append, hrob, hhand, hforb, hstk, hclr]
  omega

theorem count_init_white (spec : ProblemSpec) (n : String) :
    (init_facts spec).count (atom "white" [n])
      = (color_facts (dict_update spec.loc_props spec.box_props)).count (atom "white" [n]) := by
  have hrob : List.count (atom "white" [n]) [atom "robot-at" [spec.robot_at]] = 0 :=
    count_eq_zero_of_forall_ne (by
      intro f hf
      rw [List.mem_singleton] at hf
      subst hf
      exact atom_ne_of_divergesAt _ _ _ _ (by decide))
  have hhand : (hand_facts spec.holding).count (atom "white" [n]) = 0 :=
    count_eq_zero_of_forall_ne (by
      intro f hf
      rcases hand_facts_shapes hf with rfl | ⟨bb, rfl⟩
      · exact (atom_ne_nilargs_of_divergesAt _ _ (by decide)).symm
      · exact atom_ne_of_divergesAt _ _ _ _ (by decide))
  have hforb : (spec.forbidden_stack.map (fun p => atom "forbidden-stack" [p.1, p.2])).count
      (atom "white" [n]) = 0 :=
    count_eq_zero_of_forall_ne (by
      intro f hf
      obtain ⟨p, _, rfl⟩ := List.mem_map.mp hf
      exact atom_ne_of_divergesAt _ _ _ _ (by decide))
  have hstk : ((spec.stacks'.map (fun p => stack_facts p.1 p.2)).flatten).count
      (atom "white" [n]) = 0 :=
    count_eq_zero_of_forall_ne (by
      intro f hf
      obtain ⟨p, _, hfp⟩ := stacks_section_shapes hf
      rcases stack_facts_shapes hfp with ⟨b, _, rfl⟩ | ⟨u, v, _, rfl⟩ | ⟨b, _, rfl⟩
      · exact atom_ne_of_divergesAt _ _ _ _ (by decide)
      · exact atom_ne_of_divergesAt _ _ _ _ (by decide)
      · exact atom_ne_of_divergesAt _ _ _ _ (by decide))
  have hclr : ((spec.locations.filter
        (fun l => !((occupied_locations spec.stacks').contains l))).map
        (fun l => atom "clear" [l])).count (atom "white" [n]) = 0 :=
    count_eq_zero_of_forall_ne (by
      intro f hf
      obtain ⟨l, _, rfl⟩ := List.mem_map.mp hf
      exact atom_ne_of_divergesAt _ _ _ _ (by decide))
  simp only [init_facts, List.count_append, hrob, hhand, hforb, hstk, hclr]
  omega



theorem alookup_eq_none_of_not_key {α : Type} {l : List (String × α)} {k : String}
    (h : k ∉ l.map Prod.fst) : alookup l k = none := by
  unfold alookup
  rw [List.find?_eq_none.mpr, Option.map_none']
  intro p hp hpk
  exact h (List.mem_map.mpr ⟨p, hp, by simpa using hpk⟩)

theorem akey_eq_false_of_not_key {α : Type} {l : List (String × α)} {k : String}
    (h : k ∉ l.map Prod.fst) : akey l k = false := by
  unfold akey
  rw [Bool.eq_false_iff]
  intro hany
  obtain ⟨p, hp, hpk⟩ := List.any_eq_true.mp hany
  exact h (List.mem_map.mpr ⟨p, hp, by simpa using hpk⟩)

theorem dict_update_disjoint {base upd : List (String × Props)}
    (h : ∀ k ∈ base.map Prod.fst, k ∉ upd.map Prod.fst) :
    dict_update base upd = base ++ upd := by
  unfold dict_update
  have h1 : base.map (fun p =>
      match alookup upd p.1 with
      | some w => (p.1, w)
      | none => p) = base := by
    conv_rhs => rw [← List.map_id base]
    apply List.map_congr_left
    intro p hp
    rw [alookup_eq_none_of_not_key (h p.1 (List.mem_map.mpr ⟨p, hp, rfl⟩))]
    rfl
  have h2 : upd.filter (fun q => !(akey base q.1)) = upd := by
    apply List.filter_eq_self.mpr
    intro q hq
    have hqb : q.1 ∉ base.map Prod.fst := by
      intro hqb
      exact h q.1 hqb (List.mem_map.mpr ⟨q, hq, rfl⟩)
    rw [akey_eq_false_of_not_key hqb]
    rfl
  rw [h1, h2]

theorem color_facts_shapes_keys :
    ∀ {props : List (String × Props)} {f : String}, f ∈ color_facts props →
      ∃ n, n ∈ props.map Prod.fst ∧ (f = atom "black" [n] ∨ f = atom "white" [n]) := by
  intro props
  induction props with
  | nil => intro f hf; simp [color_facts] at hf
  | cons p rest ih =>
    intro f hf
    obtain ⟨n, pr⟩ := p
    rw [color_facts, List.mem_append] at hf
    rcases hf with hf | hf
    · exact ⟨n, by simp, color_fact_of_shapes hf⟩
    · obtain ⟨m, hm, hbw⟩ := ih hf
      exact ⟨m, List.mem_cons_of_mem _ hm, hbw⟩

theorem count_black_color_facts_zero {props : List (String × Props)} {n : String}
    (h : n ∉ props.map Prod.fst) :
    (color_facts props).count (atom "black" [n]) = 0 :=
  count_eq_zero_of_forall_ne (by
    intro f hf
    obtain ⟨m, hm, hbw⟩ := color_facts_shapes_keys hf
    have hmn : m ≠ n := fun he => h (he ▸ hm)
    rcases hbw with rfl | rfl
    · intro he; exact hmn (atom1_inj he)
    · exact atom_ne_of_divergesAt _ _ _ _ (by decide))

theorem count_white_color_facts_zero {props : List (String × Props)} {n : String}
    (h : n ∉ props.map Prod.fst) :
    (color_facts props).count (atom "white" [n]) = 0 :=
  count_eq_zero_of_forall_ne (by
    intro f hf
    obtain ⟨m, hm, hbw⟩ := color_facts_shapes_keys hf
    have hmn : m ≠ n := fun he => h (he ▸ hm)
    rcases hbw with rfl | rfl
    · exact atom_ne_of_divergesAt _ _ _ _ (by decide)
    · intro he; exact hmn (atom1_inj he))

theorem count_color_fact_of_black (n : String) (pr : Props) :
    (color_fact_of n pr).count (atom "black" [n]) = (if isBlackProp pr then 1 else 0) := by
  have hne : atom "white" [n] ≠ atom "black" [n] := atom_ne_of_divergesAt _ _ _ _ (by decide)
  unfold color_fact_of isBlackProp
  rcases halook : alookup pr "color" with _ | v
  · simp
  · cases v with
    | str s =>
      by_cases hb : s = "black"
      · subst hb; simp
      · by_cases hw : s = "white"
        · subst hw
          simp [hb, List.count_cons, hne]
        · simp [hb, hw]
    | null => simp
    | bool b => simp
    | num m => simp
    | arr xs => simp
    | obj kvs => simp

theorem count_color_fact_of_white (n : String) (pr : Props) :
    (color_fact_of n pr).count (atom "white" [n]) = (if isWhiteProp pr then 1 else 0) := by
  have hne : atom "black" [n] ≠ atom "white" [n] := atom_ne_of_divergesAt _ _ _ _ (by decide)
  unfold color_fact_of isWhiteProp
  rcases halook : alookup pr "color" with _ | v
  · simp
  · cases v with
    | str s =>
      by_cases hb : s = "black"
      · subst hb
        simp [List.count_cons, hne]
      · by_cases hw : s = "white"
        · subst hw; simp [hb]
        · simp [hb, hw]
    | null => simp
    | bool b => simp
    | num m => simp
    | arr xs => simp
    | obj kvs => simp

theorem count_color_fact_of_black_ne {n m : String} (pr : Props) (h : m ≠ n) :
    (color_fact_of m pr).count (atom "black" [n]) = 0 :=
  count_eq_zero_of_forall_ne (by
    intro f hf
    rcases color_fact_of_shapes hf with rfl | rfl
    · intro he; exact h (atom1_inj he)
    · exact atom_ne_of_divergesAt _ _ _ _ (by decide))

theorem count_color_fact_of_white_ne {n m : String} (pr : Props) (h : m ≠ n) :
    (color_fact_of m pr).count (atom "white" [n]) = 0 :=
  count_eq_zero_of_forall_ne (by
    intro f hf
    rcases color_fact_of_shapes hf with rfl | rfl
    · exact atom_ne_of_divergesAt _ _ _ _ (by decide)
    · intro he; exact h (atom1_inj he))

theorem count_black_color_facts :
    ∀ {props : List (String × Props)} {n : String} {pr : Props},
      (props.map Prod.fst).Nodup → (n, pr) ∈ props →
      (color_facts props).count (atom "black" [n]) = (if isBlackProp pr then 1 else 0) := by
  intro props
  induction props with
  | nil => intro n pr _ hmem; simp at hmem
  | cons p rest ih =>
    intro n pr hnd hmem
    obtain ⟨m, prm⟩ := p
    rw [List.map_cons, List.nodup_cons] at hnd
    rw [color_facts, List.count_append]
    rcases List.mem_cons.mp hmem with heq | hmem'
    · obtain ⟨rfl, rfl⟩ := Prod.mk.injEq .. ▸ heq
      rw [count_color_fact_of_black]
      have hz : (color_facts rest).count (atom "black" [n]) = 0 :=
        count_black_color_facts_zero hnd.1
      omega
    · have hmn : m ≠ n := by
        intro he
        exact hnd.1 (he ▸ List.mem_map.mpr ⟨(n, pr), hmem', rfl⟩)
      rw [count_color_fact_of_black_ne _ hmn, ih hnd.2 hmem']
      omega

theorem count_white_color_facts :
    ∀ {props : List (String × Props)} {n : String} {pr : Props},
      (props.map Prod.fst).Nodup → (n, pr) ∈ props →
      (color_facts props).count (atom "white" [n]) = (if isWhiteProp pr then 1 else 0) := by
  intro props
  induction props with
  | nil => intro n pr _ hmem; simp at hmem
  | cons p rest ih =>
    intro n pr hnd hmem
    obtain ⟨m, prm⟩ := p
    rw [List.map_cons, List.nodup_cons] at hnd
    rw [color_facts, List.count_append]
    rcases List.mem_cons.mp hmem with heq | hmem'
    · obtain ⟨rfl, rfl⟩ := Prod.mk.injEq .. ▸ heq
      rw [count_color_fact_of_white]
      have hz : (color_facts rest).count (atom "white" [n]) = 0 :=
        count_white_color_facts_zero hnd.1
      omega
    · have hmn : m ≠ n := by
        intro he
        exact hnd.1 (he ▸ List.mem_map.mpr ⟨(n, pr), hmem', rfl⟩)
      rw [count_color_fact_of_white_ne _ hmn, ih hnd.2 hmem']
      omega

theorem count_eq_one_of_mem_nodup {α : Type} [BEq α] [LawfulBEq α] {l : List α} {a : α}
    (hnd : l.Nodup) (ha : a ∈ l) : l.count a = 1 := by
  induction l with
  | nil => simp at ha
  | cons x xs ih =>
    rw [List.nodup_cons] at hnd
    rcases List.mem_cons.mp ha with rfl | ha'
    · rw [List.count_cons]
      have hz : xs.count a = 0 := List.count_eq_zero.mpr hnd.1
      simp [hz]
    · have hxa : x ≠ a := fun he => hnd.1 (he ▸ ha')
      simp [List.count_cons, ih hnd.2 ha', hxa]

theorem count_clear_stacks_zero {sts : List (String × List String)} {boxes : List String}
    {z : String} (hb : ∀ p ∈ sts, ∀ b ∈ p.2, b ∈ boxes) (hz : z ∉ boxes) :
    ((sts.map (fun p => stack_facts p.1 p.2)).flatten).count (atom "clear" [z]) = 0 :=
  count_eq_zero_of_forall_ne (by
    intro f hf
    obtain ⟨p, hp, hfp⟩ := stacks_section_shapes hf
    rcases stack_facts_shapes hfp with ⟨b, _, rfl⟩ | ⟨x, y, _, rfl⟩ | ⟨b, hb', rfl⟩
    · exact atom_ne_of_divergesAt _ _ _ _ (by decide)
    · exact atom_ne_of_divergesAt _ _ _ _ (by decide)
    · intro he
      exact hz (atom1_inj he ▸ hb p hp b hb'))

theorem mem_occupied_of_stack {sts : List (String × List String)} {L : String}
    {s : List String} (hLs : (L, s) ∈ sts) (hne : s ≠ []) :
    L ∈ occupied_locations sts := by
  unfold occupied_locations
  exact List.mem_map.mpr ⟨(L, s), List.mem_filter.mpr ⟨hLs, by simpa using hne⟩, rfl⟩

/-- Claim C4 is false on the code: when a location and a box share a name,
`init_facts` merges the two property maps with `dict.update`, so the box's
properties override the location's.  For `c4_cex_input` — a valid input whose
location `a` has `color = "black"` while the box `a` has no properties — the
claim demands exactly one `black(a)` fact, but the code emits none. -/
theorem c4_counterexample :
    load_ProblemSpec c4_cex_input = Except.ok c4_cex_spec ∧
    isBlackProp [("color", J.str "black")] = true ∧
    (init_facts c4_cex_spec).count (atom "black" ["a"]) = 0 :=
  ⟨rfl, rfl, rfl⟩

/-- Claim C4 (amended): when no location shares a name with a box (and the
property maps carry each declared name once, as dicts do), every entity with
`color = "black"` or `"white"` contributes exactly one corresponding fact to
the initial-state fact set, and an entity with an absent or unrecognized
color contributes no color fact naming it. -/
theorem c4_color_fact_per_entity (spec : ProblemSpec)
    (hln : (spec.loc_props.map Prod.fst).Nodup)
    (hbn : (spec.box_props.map Prod.fst).Nodup)
    (hdisj : ∀ k ∈ spec.loc_props.map Prod.fst, k ∉ spec.box_props.map Prod.fst)
    (n : String) (pr : Props)
    (hmem : (n, pr) ∈ spec.loc_props ++ spec.box_props) :
    (init_facts spec).count (atom "black" [n]) = (if isBlackProp pr then 1 else 0) ∧
    (init_facts spec).count (atom "white" [n]) = (if isWhiteProp pr then 1 else 0) := by
  have hmerged : dict_update spec.loc_props spec.box_props = spec.loc_props ++ spec.box_props :=
    dict_update_disjoint hdisj
  have hnd : ((spec.loc_props ++ spec.box_props).map Prod.fst).Nodup := by
    rw [List.map_append]
    exact List.Nodup.append hln hbn hdisj
  constructor
  · rw [count_init_black, hmerged]
    exact count_black_color_facts hnd hmem
  · rw [count_init_white, hmerged]
    exact count_white_color_facts hnd hmem

/-- Witness for the amended C4 theorem at `c4_wit_spec`: the white location
`l1` gets exactly one `white` fact and no `black` fact. -/
theorem c4_color_fact_per_entity_witness :
    (init_facts c4_wit_spec).count (atom "white" ["l1"]) = 1 ∧
    (init_facts c4_wit_spec).count (atom "black" ["l1"]) = 0 := by
  have h := c4_color_fact_per_entity c4_wit_spec (by decide) (by decide) (by decide)
    "l1" [("color", J.str "white")] (List.mem_append_left _ (List.Mem.head _))
  exact ⟨h.2, h.1⟩


theorem string_contains_iff {l : List String} {a : String} : l.contains a = true ↔ a ∈ l :=
  ⟨List.mem_of_elem_eq_true, List.elem_eq_true_of_mem⟩

/-- Claim C8 is false on the code: list-shaped location declarations are not
deduplicated, and the `clear` loop of `init_facts` iterates the location list
as given.  `c8_cex_input` declares location `a` twice and is accepted, and
the empty location `a` receives two `clear(a)` facts, not exactly one. -/
theorem c8_counterexample :
    load_ProblemSpec c8_cex_input = Except.ok c8_cex_spec ∧
    (init_facts c8_cex_spec).count (atom "clear" ["a"]) = 2 :=
  ⟨rfl, rfl⟩

/-- Claim C8 (amended): when the declared locations are pairwise distinct, no
box shares a name with a location, and the stack mapping is well-formed
(members are declared boxes, keys are declared locations), every location
with no stack — absent from the mapping or mapped to an empty stack (null
stacks are already dropped by the loader) — gets exactly one `clear` fact,
and no `clear` fact names a location with a non-empty stack. -/
theorem c8_clear_location_facts (spec : ProblemSpec)
    (hnd : spec.locations.Nodup)
    (hdisj : ∀ b ∈ spec.boxes, b ∉ spec.locations)
    (hmem : ∀ p ∈ spec.stacks', ∀ b ∈ p.2, b ∈ spec.boxes)
    (hkeys : ∀ p ∈ spec.stacks', p.1 ∈ spec.locations) :
    (∀ l ∈ spec.locations, l ∉ occupied_locations spec.stacks' →
      (init_facts spec).count (atom "clear" [l]) = 1) ∧
    (∀ p ∈ spec.stacks', p.2 ≠ [] →
      (init_facts spec).count (atom "clear" [p.1]) = 0) := by
  constructor
  · intro l hl hlocc
    rw [count_init_clear]
    have hstk : ((spec.stacks'.map (fun p => stack_facts p.1 p.2)).flatten).count
        (atom "clear" [l]) = 0 :=
      count_clear_stacks_zero hmem (fun hlb => hdisj l hlb hl)
    have hmap : ((spec.locations.filter
          (fun x => !((occupied_locations spec.stacks').contains x))).map
          (fun x => atom "clear" [x])).count (atom "clear" [l])
        = (spec.locations.filter
            (fun x => !((occupied_locations spec.stacks').contains x))).count l :=
      count_map_eq_count _ _ _ (fun b _ hb => atom1_inj hb)
    have hone : (spec.locations.filter
        (fun x => !((occupied_locations spec.stacks').contains x))).count l = 1 := by
      apply count_eq_one_of_mem_nodup (hnd.filter _)
      refine List.mem_filter.mpr ⟨hl, ?_⟩
      simp only [Bool.not_eq_true']
      rw [Bool.eq_false_iff]
      intro hcon
      exact hlocc (string_contains_iff.mp hcon)
    rw [hstk, hmap, hone]
  · intro p hp hpne
    rw [count_init_clear]
    have hLnotbox : p.1 ∉ spec.boxes := fun hb => hdisj p.1 hb (hkeys p hp)
    have hstk : ((spec.stacks'.map (fun q => stack_facts q.1 q.2)).flatten).count
        (atom "clear" [p.1]) = 0 :=
      count_clear_stacks_zero hmem hLnotbox
    have hocc : p.1 ∈ occupied_locations spec.stacks' :=
      mem_occupied_of_stack hp hpne
    have hfil : ((spec.locations.filter
          (fun x => !((occupied_locations spec.stacks').contains x))).map
          (fun x => atom "clear" [x])).count (atom "clear" [p.1]) = 0 :=
      count_eq_zero_of_forall_ne (by
        intro f hf
        obtain ⟨x, hx, rfl⟩ := List.mem_map.mp hf
        have hxf := (List.mem_filter.mp hx).2
        intro he
        have hxl : x = p.1 := atom1_inj he
        rw [hxl] at hxf
        simp only [Bool.not_eq_true'] at hxf
        exact absurd (string_contains_iff.mpr hocc) (by rw [hxf]; exact Bool.false_ne_true)
      )
    rw [hstk, hfil]

/-- Witness for the amended C8 theorem at `c8_wit_spec`: the empty location
`l2` gets exactly one `clear` fact; the occupied location `l1` gets none. -/
theorem c8_clear_location_facts_witness :
    (init_facts c8_wit_spec).count (atom "clear" ["l2"]) = 1 ∧
    (init_facts c8_wit_spec).count (atom "clear" ["l1"]) = 0 := by
  have h := c8_clear_location_facts c8_wit_spec (by decide) (by decide) (by decide) (by decide)
  exact ⟨h.1 "l2" (by decide) (by decide), h.2 ("l1", ["b1"]) (by decide) (by decide)⟩

theorem validate_ok_iff (spec : ProblemSpec) :
    validate_spec spec = Except.ok () ↔
      ((∀ b ∈ used_boxes spec, (used_boxes spec).count b ≤ 1) ∧
       (∀ b ∈ spec.boxes, b ∈ used_boxes spec) ∧
       (∀ p ∈ spec.stacks', p.2.Nodup)) := by
  have hdup : (!(dupes_of spec).isEmpty) = false ↔
      (∀ b ∈ used_boxes spec, (used_boxes spec).count b ≤ 1) := by
    rw [Bool.not_eq_false', List.isEmpty_iff, dupes_of,
      List.dedup_eq_nil, List.filter_eq_nil_iff]
    constructor
    · intro h b hb
      have := h b hb
      simpa using this
    · intro h b hb
      simpa using h b hb
  have hmiss : (!(missing_of spec).isEmpty) = false ↔
      (∀ b ∈ spec.boxes, b ∈ used_boxes spec) := by
    rw [Bool.not_eq_false', List.isEmpty_iff, missing_of,
      List.dedup_eq_nil, List.filter_eq_nil_iff]
    constructor
    · intro h b hb
      have := h b hb
      simp only [Bool.not_eq_true', Bool.not_eq_false] at this
      exact string_contains_iff.mp this
    · intro h b hb
      simp only [Bool.not_eq_true', Bool.not_eq_false]
      exact string_contains_iff.mpr (h b hb)
  have hfind : (spec.stacks'.find? (fun p => p.2.dedup.length != p.2.length) = none) ↔
      (∀ p ∈ spec.stacks', p.2.Nodup) := by
    rw [List.find?_eq_none]
    constructor
    · intro h p hp
      have := h p hp
      rw [bne_iff_ne, not_not] at this
      have hsub := List.dedup_sublist p.2
      rw [← hsub.eq_of_length this]
      exact List.nodup_dedup p.2
    · intro h p hp
      rw [bne_iff_ne, not_not, List.dedup_eq_self.mpr (h p hp)]
  constructor
  · intro h
    unfold validate_spec at h
    split at h
    · exact absurd h (by simp)
    · split at h
      · exact absurd h (by simp)
      · split at h
        · exact absurd h (by simp)
        next hfnone =>
          refine ⟨hdup.mp (by simpa using ‹¬(!(dupes_of spec).isEmpty) = true›),
            hmiss.mp (by simpa using ‹¬(!(missing_of spec).isEmpty) = true›), hfind.mp hfnone⟩
  · rintro ⟨h1, h2, h3⟩
    unfold validate_spec
    rw [if_neg (by rw [hdup.mpr h1]; exact Bool.false_ne_true),
      if_neg (by rw [hmiss.mpr h2]; exact Bool.false_ne_true), hfind.mpr h3]

theorem exists_split_of_mem_nodupkeys {sts : List (String × List String)} {L : String}
    {s : List String} (h : (L, s) ∈ sts) (hnd : (sts.map Prod.fst).Nodup) :
    ∃ u v, sts = u ++ (L, s) :: v ∧ (∀ q ∈ u, q.1 ≠ L) ∧ (∀ q ∈ v, q.1 ≠ L) := by
  obtain ⟨u, v, rfl⟩ := List.append_of_mem h
  rw [List.map_append, List.map_cons, List.nodup_append] at hnd
  obtain ⟨_, hnd2, hdisj⟩ := hnd
  rw [List.nodup_cons] at hnd2
  refine ⟨u, v, rfl, ?_, ?_⟩
  · intro q hq he
    exact hdisj (List.mem_map.mpr ⟨q, hq, he⟩) (List.mem_cons_self _ _)
  · intro q hq he
    exact hnd2.1 (he ▸ List.mem_map.mpr ⟨q, hq, rfl⟩)

theorem count_used_decomp (spec : ProblemSpec) {u v : List (String × List String)}
    {L : String} {s : List String} (hdecomp : spec.stacks' = u ++ (L, s) :: v) (b : String) :
    (used_boxes spec).count b =
      ((match spec.holding with
        | some bb => [bb]
        | none => []).count b)
      + ((u.map Prod.snd).flatten).count b + s.count b + ((v.map Prod.snd).flatten).count b := by
  rw [used_boxes, hdecomp]
  simp only [List.map_append, List.map_cons, List.flatten_append, List.flatten_cons,
    List.count_append]
  omega

theorem not_mem_other_stacks (spec : ProblemSpec)
    (hc1 : ∀ b ∈ used_boxes spec, (used_boxes spec).count b ≤ 1)
    {u v : List (String × List String)} {L : String} {s : List String}
    (hdecomp : spec.stacks' = u ++ (L, s) :: v)
    {b : String} (hb : b ∈ s) : ∀ q ∈ u ++ v, b ∉ q.2 := by
  have hbu : b ∈ used_boxes spec := by
    rw [used_boxes, hdecomp]
    refine List.mem_append_right _ (List.mem_flatten.mpr ⟨s, ?_, hb⟩)
    rw [List.map_append, List.map_cons]
    exact List.mem_append_right _ (List.mem_cons_self _ _)
  have hcount := hc1 b hbu
  rw [count_used_decomp spec hdecomp b] at hcount
  have hs1 : 1 ≤ s.count b := List.count_pos_iff.mpr hb
  have hu0 : ((u.map Prod.snd).flatten).count b = 0 := by omega
  have hv0 : ((v.map Prod.snd).flatten).count b = 0 := by omega
  intro q hq hbq
  rcases List.mem_append.mp hq with hqu | hqv
  · have : b ∈ (u.map Prod.snd).flatten :=
      List.mem_flatten.mpr ⟨q.2, List.mem_map.mpr ⟨q, hqu, rfl⟩, hbq⟩
    exact absurd (List.count_pos_iff.mpr this) (by omega)
  · have : b ∈ (v.map Prod.snd).flatten :=
      List.mem_flatten.mpr ⟨q.2, List.mem_map.mpr ⟨q, hqv, rfl⟩, hbq⟩
    exact absurd (List.count_pos_iff.mpr this) (by omega)

theorem count_boxat_other_chunks_zero {sts : List (String × List String)}
    {boxes : List String} (hmemB : ∀ p ∈ sts, ∀ bb ∈ p.2, bb ∈ boxes)
    (hsf : ∀ n ∈ boxes, ' ' ∉ n.data)
    {b L : String} (hbsf : ' ' ∉ b.data) (hkey : ∀ p ∈ sts, p.1 ≠ L) :
    ((sts.map (fun p => stack_facts p.1 p.2)).flatten).count (atom "box-at" [b, L]) = 0 :=
  count_eq_zero_of_forall_ne (by
    intro f hf
    obtain ⟨p, hp, hfp⟩ := stacks_section_shapes hf
    rcases stack_facts_shapes hfp with ⟨bb, hbb, rfl⟩ | ⟨x, y, _, rfl⟩ | ⟨bb, _, rfl⟩
    · intro he
      obtain ⟨_, hL⟩ := atom2_inj (hsf bb (hmemB p hp bb hbb)) hbsf he
      exact hkey p hp hL
    · exact atom_ne_of_divergesAt _ _ _ _ (by decide)
    · exact atom_ne_of_divergesAt _ _ _ _ (by decide))

theorem count_on_other_chunks_zero {sts : List (String × List String)}
    {boxes : List String} (hmemB : ∀ p ∈ sts, ∀ bb ∈ p.2, bb ∈ boxes)
    (hsf : ∀ n ∈ boxes, ' ' ∉ n.data)
    {x y : String} (hxsf : ' ' ∉ x.data) (hx : ∀ p ∈ sts, x ∉ p.2) :
    ((sts.map (fun p => stack_facts p.1 p.2)).flatten).count (atom "on" [x, y]) = 0 :=
  count_eq_zero_of_forall_ne (by
    intro f hf
    obtain ⟨p, hp, hfp⟩ := stacks_section_shapes hf
    rcases stack_facts_shapes hfp with ⟨bb, _, rfl⟩ | ⟨w, z, hw, rfl⟩ | ⟨bb, _, rfl⟩
    · exact atom_ne_of_divergesAt _ _ _ _ (by decide)
    · intro he
      obtain ⟨hwx, _⟩ := atom2_inj (hsf w (hmemB p hp w hw)) hxsf he
      exact hx p hp (hwx ▸ hw)
    · exact atom_ne_of_divergesAt _ _ _ _ (by decide))

theorem count_clear_other_chunks_zero {sts : List (String × List String)}
    {z : String} (hz : ∀ p ∈ sts, z ∉ p.2) :
    ((sts.map (fun p => stack_facts p.1 p.2)).flatten).count (atom "clear" [z]) = 0 :=
  count_eq_zero_of_forall_ne (by
    intro f hf
    obtain ⟨p, hp, hfp⟩ := stacks_section_shapes hf
    rcases stack_facts_shapes hfp with ⟨bb, _, rfl⟩ | ⟨w, zz, _, rfl⟩ | ⟨bb, hbb, rfl⟩
    · exact atom_ne_of_divergesAt _ _ _ _ (by decide)
    · exact atom_ne_of_divergesAt _ _ _ _ (by decide)
    · intro he
      exact hz p hp (atom1_inj he ▸ hbb))

theorem count_boxat_stack_facts {L : String} {s : List String} {b : String}
    (hsf : ∀ bb ∈ s, ' ' ∉ bb.data) (hnd : s.Nodup) (hb : b ∈ s) :
    (stack_facts L s).count (atom "box-at" [b, L]) = 1 := by
  cases s with
  | nil => simp at hb
  | cons b0 rest =>
    rw [stack_facts, List.append_assoc, List.count_append, List.count_append]
    have h1 : ((b0 :: rest).map (fun bb => atom "box-at" [bb, L])).count
        (atom "box-at" [b, L]) = (b0 :: rest).count b :=
      count_map_eq_count _ _ _ (fun bb hbb he => (atom2_inj (hsf bb hbb) (hsf b hb) he).1)
    have h2 : (on_chain L (b0 :: rest)).count (atom "box-at" [b, L]) = 0 :=
      count_eq_zero_of_forall_ne (by
        intro f hf
        obtain ⟨x, y, _, rfl⟩ := on_chain_shapes hf
        exact atom_ne_of_divergesAt _ _ _ _ (by decide))
    have h3 : List.count (atom "box-at" [b, L]) [atom "clear" [b0]] = 0 :=
      count_eq_zero_of_forall_ne (by
        intro f hf
        rw [List.mem_singleton] at hf
        subst hf
        exact atom_ne_of_divergesAt _ _ _ _ (by decide))
    rw [h1, h2, h3, count_eq_one_of_mem_nodup hnd hb]

theorem zip_fst_mem {s : List String} {L : String} {q : String × String}
    (hq : q ∈ s.zip (s.tail ++ [L])) : q.1 ∈ s := by
  have hlen : s.length ≤ (s.tail ++ [L]).length := by
    rw [List.length_append, List.length_tail]
    cases s <;> simp
  have := List.map_fst_zip s (s.tail ++ [L]) hlen
  rw [← this]
  exact List.mem_map.mpr ⟨q, hq, rfl⟩

theorem count_on_stack_facts {L : String} {s : List String}
    (hsf : ∀ bb ∈ s, ' ' ∉ bb.data) (hnd : s.Nodup)
    {pr : String × String} (hpr : pr ∈ s.zip (s.tail ++ [L])) :
    (stack_facts L s).count (atom "on" [pr.1, pr.2]) = 1 := by
  have hpr1 : pr.1 ∈ s := zip_fst_mem hpr
  cases s with
  | nil => simp at hpr1
  | cons b0 rest =>
    rw [stack_facts, List.append_assoc, List.count_append, List.count_append]
    have h1 : ((b0 :: rest).map (fun bb => atom "box-at" [bb, L])).count
        (atom "on" [pr.1, pr.2]) = 0 :=
      count_eq_zero_of_forall_ne (by
        intro f hf
        obtain ⟨bb, _, rfl⟩ := List.mem_map.mp hf
        exact atom_ne_of_divergesAt _ _ _ _ (by decide))
    have hznd : ((b0 :: rest).zip ((b0 :: rest).tail ++ [L])).Nodup := by
      have hlen : (b0 :: rest).length ≤ ((b0 :: rest).tail ++ [L]).length := by
        simp
      exact List.Nodup.of_map Prod.fst (by rw [List.map_fst_zip _ _ hlen]; exact hnd)
    have h2 : (on_chain L (b0 :: rest)).count (atom "on" [pr.1, pr.2]) = 1 := by
      rw [on_chain_eq_zip]
      have hcm : (((b0 :: rest).zip ((b0 :: rest).tail ++ [L])).map
          (fun q => atom "on" [q.1, q.2])).count (atom "on" [pr.1, pr.2])
          = ((b0 :: rest).zip ((b0 :: rest).tail ++ [L])).count pr :=
        count_map_eq_count _ _ _ (fun q hq he => by
          obtain ⟨h1', h2'⟩ := atom2_inj (hsf q.1 (zip_fst_mem hq)) (hsf pr.1 hpr1) he
          exact Prod.ext h1' h2')
      rw [hcm, count_eq_one_of_mem_nodup hznd hpr]
    have h3 : List.count (atom "on" [pr.1, pr.2]) [atom "clear" [b0]] = 0 :=
      count_eq_zero_of_forall_ne (by
        intro f hf
        rw [List.mem_singleton] at hf
        subst hf
        exact atom_ne_of_divergesAt _ _ _ _ (by decide))
    rw [h1, h2, h3]

theorem count_clear_stack_facts {L : String} {s : List String} (hne : s ≠ []) :
    (stack_facts L s).count (atom "clear" [s.head hne]) = 1 := by
  cases s with
  | nil => exact absurd rfl hne
  | cons b0 rest =>
    rw [stack_facts, List.append_assoc, List.count_append, List.count_append]
    have h1 : ((b0 :: rest).map (fun bb => atom "box-at" [bb, L])).count
        (atom "clear" [(b0 :: rest).head hne]) = 0 :=
      count_eq_zero_of_forall_ne (by
        intro f hf
        obtain ⟨bb, _, rfl⟩ := List.mem_map.mp hf
        exact atom_ne_of_divergesAt _ _ _ _ (by decide))
    have h2 : (on_chain L (b0 :: rest)).count (atom "clear" [(b0 :: rest).head hne]) = 0 :=
      count_eq_zero_of_forall_ne (by
        intro f hf
        obtain ⟨x, y, _, rfl⟩ := on_chain_shapes hf
        exact atom_ne_of_divergesAt _ _ _ _ (by decide))
    rw [h1, h2]
    simp [List.head]

/-- Claim C2 is false as stated: boxes may share names with locations, and
then the `clear` facts collide.  In the valid specification loaded from
`c2_cex_input`, the single-box stack `["b"]` sits at location `a`, but the
fact list contains `clear(b)` twice — once as the stack's clear-top fact and
once because the empty location `b` is marked clear — not exactly once. -/
theorem c2_counterexample :
    load_ProblemSpec c2_cex_input = Except.ok c2_cex_spec ∧
    (init_facts c2_cex_spec).count (atom "clear" ["b"]) = 2 :=
  ⟨rfl, rfl⟩

/-- Claim C2 (amended): for a validated specification whose stack mapping is
well-formed (distinct keys that are declared locations, members that are
declared boxes), whose box names are disjoint from its location names, and
whose box names contain no space character, every non-empty stack
`[b0 (top), …, bk (bottom)]` at location `L` contributes exactly one
`box-at(bi, L)` fact per member, exactly one `on` fact per pair of the zip of
the stack with its tail extended by `L` (that is, the k−1 adjacent pairs and
the final `on(bk, L)`), exactly one `clear(b0)` fact, and no `clear(L)`
fact. -/
theorem c2_stack_fact_counts (spec : ProblemSpec) (L : String) (s : List String)
    (hLs : (L, s) ∈ spec.stacks')
    (hne : s ≠ [])
    (hval : validate_spec spec = Except.ok ())
    (hkeysnd : (spec.stacks'.map Prod.fst).Nodup)
    (hkeys : ∀ p ∈ spec.stacks', p.1 ∈ spec.locations)
    (hmem : ∀ p ∈ spec.stacks', ∀ b ∈ p.2, b ∈ spec.boxes)
    (hdisj : ∀ b ∈ spec.boxes, b ∉ spec.locations)
    (hsf : ∀ n ∈ spec.boxes, ' ' ∉ n.data) :
    (∀ b ∈ s, (init_facts spec).count (atom "box-at" [b, L]) = 1) ∧
    (∀ pr ∈ s.zip (s.tail ++ [L]), (init_facts spec).count (atom "on" [pr.1, pr.2]) = 1) ∧
    (init_facts spec).count (atom "clear" [s.head hne]) = 1 ∧
    (init_facts spec).count (atom "clear" [L]) = 0 := by
  obtain ⟨hc1, hc2, hc3⟩ := (validate_ok_iff spec).mp hval
  obtain ⟨u, v, hdecomp, hLu, hLv⟩ := exists_split_of_mem_nodupkeys hLs hkeysnd
  have hsnd : s.Nodup := hc3 (L, s) hLs
  have hsb : ∀ bb ∈ s, bb ∈ spec.boxes := hmem (L, s) hLs
  have hssf : ∀ bb ∈ s, ' ' ∉ bb.data := fun bb hbb => hsf bb (hsb bb hbb)
  have hother : ∀ bb ∈ s, ∀ q ∈ u ++ v, bb ∉ q.2 := fun bb hbb =>
    not_mem_other_stacks spec hc1 hdecomp hbb
  have hmemu : ∀ p ∈ u, ∀ bb ∈ p.2, bb ∈ spec.boxes := by
    intro p hp
    apply hmem
    rw [hdecomp]
    exact List.mem_append_left _ hp
  have hmemv : ∀ p ∈ v, ∀ bb ∈ p.2, bb ∈ spec.boxes := by
    intro p hp
    apply hmem
    rw [hdecomp]
    exact List.mem_append_right _ (List.mem_cons_of_mem _ hp)
  have hsec : (spec.stacks'.map (fun p => stack_facts p.1 p.2)).flatten
      = (u.map (fun p => stack_facts p.1 p.2)).flatten
        ++ (stack_facts L s ++ (v.map (fun p => stack_facts p.1 p.2)).flatten) := by
    rw [hdecomp]
    simp only [List.map_append, List.map_cons, List.flatten_append, List.flatten_cons]
  refine ⟨?_, ?_, ?_, ?_⟩
  · intro b hb
    rw [count_init_boxat, hsec, List.count_append, List.count_append]
    have hu0 := count_boxat_other_chunks_zero hmemu hsf (hsf b (hsb b hb)) hLu
    have hv0 := count_boxat_other_chunks_zero hmemv hsf (hsf b (hsb b hb)) hLv
    have hch := count_boxat_stack_facts (L := L) hssf hsnd hb
    omega
  · intro pr hpr
    have hpr1s : pr.1 ∈ s := zip_fst_mem hpr
    rw [count_init_on, hsec, List.count_append, List.count_append]
    have hu0 := count_on_other_chunks_zero (y := pr.2) hmemu hsf (hsf pr.1 (hsb _ hpr1s))
      (fun p hp => hother pr.1 hpr1s p (List.mem_append_left _ hp))
    have hv0 := count_on_other_chunks_zero (y := pr.2) hmemv hsf (hsf pr.1 (hsb _ hpr1s))
      (fun p hp => hother pr.1 hpr1s p (List.mem_append_right _ hp))
    have hch := count_on_stack_facts hssf hsnd hpr
    omega
  · rw [count_init_clear, hsec, List.count_append, List.count_append]
    have hh : s.head hne ∈ s := List.head_mem hne
    have hu0 := count_clear_other_chunks_zero
      (fun p hp => hother (s.head hne) hh p (List.mem_append_left _ hp))
    have hv0 := count_clear_other_chunks_zero
      (fun p hp => hother (s.head hne) hh p (List.mem_append_right _ hp))
    have hch := count_clear_stack_facts (L := L) hne
    have hloc0 : ((spec.locations.filter
          (fun x => !((occupied_locations spec.stacks').contains x))).map
          (fun x => atom "clear" [x])).count (atom "clear" [s.head hne]) = 0 :=
      count_eq_zero_of_forall_ne (by
        intro f hf
        obtain ⟨x, hx, rfl⟩ := List.mem_map.mp hf
        intro he
        have hxh : x = s.head hne := atom1_inj he
        have hxl : x ∈ spec.locations := (List.mem_filter.mp hx).1
        exact hdisj (s.head hne) (hsb _ hh) (hxh ▸ hxl))
    omega
  · rw [count_init_clear]
    have hLloc : L ∈ spec.locations := hkeys (L, s) hLs
    have hLnotbox : L ∉ spec.boxes := fun hLb => hdisj L hLb hLloc
    have hstk := count_clear_stacks_zero hmem hLnotbox
    have hocc : L ∈ occupied_locations spec.stacks' := mem_occupied_of_stack hLs hne
    have hfil : ((spec.locations.filter
          (fun x => !((occupied_locations spec.stacks').contains x))).map
          (fun x => atom "clear" [x])).count (atom "clear" [L]) = 0 :=
      count_eq_zero_of_forall_ne (by
        intro f hf
        obtain ⟨x, hx, rfl⟩ := List.mem_map.mp hf
        have hxf := (List.mem_filter.mp hx).2
        intro he
        have hxl : x = L := atom1_inj he
        rw [hxl] at hxf
        simp only [Bool.not_eq_true'] at hxf
        exact absurd (string_contains_iff.mpr hocc) (by rw [hxf]; exact Bool.false_ne_true))
    omega

/-- Witness for the amended C2 theorem at `c2_wit_spec`: the two-box stack
`[b1, b2]` at `l1` yields single `box-at`, `on(b1,b2)`, `on(b2,l1)` and
`clear(b1)` facts, and no `clear(l1)` fact. -/
theorem c2_stack_fact_counts_witness :
    (init_facts c2_wit_spec).count (atom "box-at" ["b1", "l1"]) = 1 ∧
    (init_facts c2_wit_spec).count (atom "box-at" ["b2", "l1"]) = 1 ∧
    (init_facts c2_wit_spec).count (atom "on" ["b1", "b2"]) = 1 ∧
    (init_facts c2_wit_spec).count (atom "on" ["b2", "l1"]) = 1 ∧
    (init_facts c2_wit_spec).count (atom "clear" ["b1"]) = 1 ∧
    (init_facts c2_wit_spec).count (atom "clear" ["l1"]) = 0 := by
  have h := c2_stack_fact_counts c2_wit_spec "l1" ["b1", "b2"] (by decide) (by decide)
    (by rfl) (by decide) (by decide) (by decide) (by decide) (by decide)
  exact ⟨h.1 "b1" (by decide), h.1 "b2" (by decide),
    h.2.1 ("b1", "b2") (by decide), h.2.1 ("b2", "l1") (by decide),
    h.2.2.1, h.2.2.2⟩

theorem nodup_of_count_le_one {α : Type} [BEq α] [LawfulBEq α] {l : List α}
    (h : ∀ a ∈ l, l.count a ≤ 1) : l.Nodup := by
  induction l with
  | nil => exact List.nodup_nil
  | cons x xs ih =>
    have hx := h x (List.mem_cons_self _ _)
    rw [List.count_cons] at hx
    simp only [BEq.refl, if_pos] at hx
    have hx0 : xs.count x = 0 := by omega
    refine List.Nodup.cons (fun hm => ?_) (ih ?_)
    · exact absurd (List.count_pos_iff.mpr hm) (by omega)
    · intro a ha
      have := h a (List.mem_cons_of_mem _ ha)
      rw [List.count_cons] at this
      omega

theorem count_stack_le_used (spec : ProblemSpec) {p : String × List String}
    (hp : p ∈ spec.stacks') (b : String) :
    p.2.count b ≤ (used_boxes spec).count b := by
  rw [used_boxes, List.count_append]
  have h : p.2.count b ≤ ((spec.stacks'.map Prod.snd).flatten).count b := by
    rw [List.count_flatten]
    exact List.single_le_sum (fun x _ => Nat.zero_le x) _
      (List.mem_map.mpr ⟨p.2, List.mem_map.mpr ⟨p, hp, rfl⟩, rfl⟩)
  omega

/-- Claim C7: for inputs past the shape and reference checks (the held box
and all stack members are declared boxes), `validate_spec` succeeds exactly
when every declared box occurs exactly once across the held box and all stack
members; otherwise it raises a `ValueError` and `load_ProblemSpec` returns no
specification.  This covers a box in two stacks, a box both held and
stacked, a box nowhere, and a box twice in one stack. -/
theorem c7_validate_iff_exactly_once (spec : ProblemSpec)
    (h1 : spec.holding.all (fun b => spec.boxes.contains b) = true)
    (h2 : ∀ p ∈ spec.stacks', ∀ b ∈ p.2, b ∈ spec.boxes) :
    validate_spec spec = Except.ok () ↔
      (∀ b ∈ spec.boxes, (used_boxes spec).count b = 1) := by
  rw [validate_ok_iff]
  have husedmem : ∀ b ∈ used_boxes spec, b ∈ spec.boxes := by
    intro b hb
    rw [used_boxes, List.mem_append] at hb
    rcases hb with hbh | hbs
    · cases hh : spec.holding with
      | none => rw [hh] at hbh; simp at hbh
      | some bb =>
        rw [hh] at hbh
        rw [hh] at h1
        simp only [Option.all] at h1
        have hbbb : b = bb := by simpa using hbh
        subst hbbb
        exact string_contains_iff.mp h1
    · rw [List.mem_flatten] at hbs
      obtain ⟨l, hl, hbl⟩ := hbs
      obtain ⟨p, hp, rfl⟩ := List.mem_map.mp hl
      exact h2 p hp b hbl
  constructor
  · rintro ⟨hc1, hc2, _⟩ b hb
    have hmem := hc2 b hb
    have hle := hc1 b hmem
    have hge := List.count_pos_iff.mpr hmem
    omega
  · intro h
    refine ⟨?_, ?_, ?_⟩
    · intro b hb
      rw [h b (husedmem b hb)]
    · intro b hb
      exact List.count_pos_iff.mp (by rw [h b hb]; omega)
    · intro p hp
      apply nodup_of_count_le_one
      intro a ha
      have hab : a ∈ spec.boxes := h2 p hp a ha
      have := count_stack_le_used spec hp a
      rw [h a hab] at this
      exact this

/-- Witness for the C7 theorem at `c7_wit_spec` (box `b1` held, box `b2`
stacked): validation succeeds because each declared box is used once. -/
theorem c7_validate_iff_exactly_once_witness :
    validate_spec c7_wit_spec = Except.ok () :=
  (c7_validate_iff_exactly_once c7_wit_spec (by rfl) (by decide)).mpr (by decide)

/-- Claim C5: the goal formula collects its atoms in the fixed order `on`
pairs, then `box-at` pairs, then `clear` entries, then raw `pddl` fragments
verbatim (the list built by `goalAtoms`), and composes them with
`and_formula`: the empty list renders as the explicit `(and)`, a single atom
is returned unwrapped, and two or more atoms are wrapped in one conjunction
in that order. -/
theorem c5_goal_formula_shape (spec : ProblemSpec) :
    (goal_formula spec = and_formula (goalAtoms spec)) ∧
    (goalAtoms spec = [] → goal_formula spec = "(and)") ∧
    (∀ a, goalAtoms spec = [a] → goal_formula spec = a) ∧
    (∀ a b rest, goalAtoms spec = a :: b :: rest →
      goal_formula spec = "(and " ++ joinSpace (a :: b :: rest) ++ ")") := by
  refine ⟨rfl, ?_, ?_, ?_⟩
  · intro h
    rw [goal_formula, h]
    rfl
  · intro a h
    rw [goal_formula, h]
    rfl
  · intro a b rest h
    rw [goal_formula, h]
    rfl

/-- Witness for the C5 theorem at `c5_wit_spec`: one `on` atom and one
`clear` atom are wrapped into a conjunction in that order. -/
theorem c5_goal_formula_shape_witness :
    goal_formula c5_wit_spec = "(and (on b1 b2) (clear c1))" :=
  ((c5_goal_formula_shape c5_wit_spec).2.2.2 "(on b1 b2)" "(clear c1)" [] rfl).trans (by decide)

/-- Claim C6 is false on the code: for an input whose stack contains an
internal duplicate and whose goal references an undeclared name, the error
reported is the goal reference error, not a stack-duplicate error — the
stack-internal-duplicate check lives in `validate_spec`, which
`load_ProblemSpec` runs only after all goal checks. -/
theorem c6_counterexample :
    load_ProblemSpec c6_cex_input = Except.error "goal.on top must be a box; got \"zzz\"" ∧
    load_ProblemSpec c6_cex_input ≠ Except.error
      "Each box must appear exactly once across holding and stacks. Duplicates: ['b1']" ∧
    load_ProblemSpec c6_cex_input ≠ Except.error
      "Stack at location \"l1\" contains duplicate box names: ['b1', 'b1']" := by
  have he : load_ProblemSpec c6_cex_input
      = Except.error "goal.on top must be a box; got \"zzz\"" := rfl
  refine ⟨he, ?_, ?_⟩ <;>
    · intro h
      rw [he] at h
      injection h with h2
      exact absurd h2 (by decide)

theorem except_pure_bind {α β ε : Type} (a : α) (f : α → Except ε β) :
    ((pure a : Except ε α) >>= f) = f a := rfl

theorem except_ok_bind {α β ε : Type} (a : α) (f : α → Except ε β) :
    ((Except.ok a : Except ε α) >>= f) = f a := rfl

theorem except_error_bind {α β ε : Type} (e : ε) (f : α → Except ε β) :
    ((Except.error e : Except ε α) >>= f) = Except.error e := rfl

/-- Claim C6 (amended): for every raw object input on which every check
before the goal succeeds, whose stack mapping contains a stack with an
internal duplicate, and whose `goal.on` check fails, `load_ProblemSpec`
reports the `goal.on` error — never a stack-duplicate error, since the
stack-internal-duplicate check lives in `validate_spec`, which runs only
after all goal checks. -/
theorem c6_goal_error_precedes_stack_dup
    (kvs init g : List (String × J)) (pname robot : String)
    (locations boxes : List String) (locp boxp : List (String × Props))
    (hold : Option String) (sts : List (String × List String))
    (fbd : List (String × String)) (e : String)
    (hreq : (["problem_name", "locations", "boxes", "initial_state", "goal"].find?
      (fun k => !(akey kvs k))) = none)
    (hpn : parse_problem_name kvs = Except.ok pname)
    (hloc : parse_named_objects ((alookup kvs "locations").getD J.null) "locations"
      = Except.ok (locations, locp))
    (hbox : parse_named_objects ((alookup kvs "boxes").getD J.null) "boxes"
      = Except.ok (boxes, boxp))
    (hinit : (alookup kvs "initial_state").getD J.null = J.obj init)
    (hrk : akey init "robot_at" = true)
    (hra : parse_robot_at init locations = Except.ok robot)
    (hhold : parse_holding init boxes = Except.ok hold)
    (hsk : akey init "stacks" = true)
    (hst : parse_stacks_field init locations boxes = Except.ok sts)
    (hdup : ∃ p ∈ sts, ¬ p.2.Nodup)
    (hfb : parse_forbidden kvs boxes = Except.ok fbd)
    (hg : (alookup kvs "goal").getD J.null = J.obj g)
    (hgo : parse_goal_on_field g boxes locations = Except.error e) :
    load_ProblemSpec (J.obj kvs) = Except.error e := by
  simp only [load_ProblemSpec, hreq, hpn, hloc, hbox, hinit, hrk, hra, hhold, hsk, hst,
    hfb, hg, hgo, except_pure_bind, except_ok_bind, except_error_bind, if_true]

/-- Witness for the amended C6 theorem at the components of `c6_cex_input`:
the stack at `l1` holds `b1` twice, `goal.on` references the undeclared
`zzz`, and the loader reports the goal error. -/
theorem c6_goal_error_precedes_stack_dup_witness :
    load_ProblemSpec c6_cex_input = Except.error "goal.on top must be a box; got \"zzz\"" :=
  c6_goal_error_precedes_stack_dup
    [("problem_name", J.str "p"), ("locations", J.arr [J.str "l1"]),
      ("boxes", J.arr [J.str "b1"]),
      ("initial_state", J.obj [("robot_at", J.str "l1"),
        ("stacks", J.obj [("l1", J.arr [J.str "b1", J.str "b1"])])]),
      ("goal", J.obj [("on", J.arr [J.arr [J.str "zzz", J.str "l1"]])])]
    [("robot_at", J.str "l1"), ("stacks", J.obj [("l1", J.arr [J.str "b1", J.str "b1"])])]
    [("on", J.arr [J.arr [J.str "zzz", J.str "l1"]])]
    "p" "l1" ["l1"] ["b1"] [("l1", ([] : Props))] [("b1", ([] : Props))]
    none [("l1", ["b1", "b1"])] [] "goal.on top must be a box; got \"zzz\""
    rfl rfl rfl rfl rfl rfl rfl rfl rfl rfl
    ⟨("l1", ["b1", "b1"]), by decide, by decide⟩ rfl rfl rfl

/-- Claim C10: list-shaped name declarations keep duplicates — the canonical
name list is the input list itself, only non-string or empty entries are
rejected — and the `:objects` line of the emitted problem joins the name
lists as given, so a duplicated name is emitted twice. -/
theorem c10_duplicate_names_preserved :
    (∀ (xs : List String) (kind : String), (∀ s ∈ xs, s.data ≠ []) →
      parse_named_objects (J.arr (xs.map J.str)) kind
        = Except.ok (xs, (firstDedup xs).map (fun n => (n, ([] : Props))))) ∧
    (∀ (ys : List J) (kind : String), ys.all is_name = false →
      parse_named_objects (J.arr ys) kind
        = Except.error ("\"" ++ kind ++ "\" list must contain only strings")) ∧
    (∀ spec : ProblemSpec, (emit_lines spec)[2]?
        = some ("  (:objects " ++ joinSpace spec.boxes ++ " - box\n          "
            ++ joinSpace spec.locations ++ " - location)")) := by
  refine ⟨?_, ?_, ?_⟩
  · intro xs kind h
    have hall : (xs.map J.str).all is_name = true := by
      rw [List.all_eq_true]
      intro v hv
      obtain ⟨s, hs, rfl⟩ := List.mem_map.mp hv
      simpa [is_name] using h s hs
    have hmap : (xs.map J.str).map jStr = xs := by
      rw [List.map_map]
      conv_rhs => rw [← List.map_id xs]
      exact List.map_congr_left (fun s _ => rfl)
    simp only [parse_named_objects, hall, if_true, hmap]
  · intro ys kind h
    simp only [parse_named_objects, h, Bool.false_eq_true, if_false]
  · intro spec
    rfl

/-- Witness for the C10 theorem: the duplicated declaration `["b1", "b1"]` is
accepted, kept in order, and `b1` appears twice on the `:objects` line. -/
theorem c10_duplicate_names_preserved_witness :
    parse_named_objects (J.arr [J.str "b1", J.str "b1"]) "boxes"
      = Except.ok ((["b1", "b1"] : List String), [("b1", ([] : Props))]) ∧
    (emit_lines c10_wit_spec)[2]? = some "  (:objects b1 b1 - box\n          l1 - location)" :=
  ⟨c10_duplicate_names_preserved.1 ["b1", "b1"] "boxes" (by decide),
   c10_duplicate_names_preserved.2.2 c10_wit_spec⟩

set_option maxHeartbeats 2000000 in
/-- Claim C3 is false on the code: a line that starts with `(` but does not
end with `)` falls into the `parse_fd_plan_text` loop's final `pass` branch
and is silently ignored; parsing succeeds with no steps and no cost instead
of raising an error. -/
theorem c3_counterexample :
    parse_fd_plan_text "(move b1 l1" = Except.ok ([], none) := rfl

set_option maxHeartbeats 2000000 in
theorem splitLinesAux_no_break :
    ∀ (l acc : List Char), (∀ c ∈ l, isLineBreak c = false) →
      splitLinesAux l acc =
        if (acc.reverse ++ l).isEmpty then [] else [acc.reverse ++ l] := by
  intro l
  induction l with
  | nil =>
    intro acc h
    rcases acc with _ | ⟨a, as⟩
    · rfl
    · simp [splitLinesAux]
  | cons c rest ih =>
    intro acc h
    have hc : isLineBreak c = false := h c (List.mem_cons_self _ _)
    have hcr : c ≠ '\r' := by
      intro he
      rw [he] at hc
      exact absurd hc (by decide)
    rw [splitLinesAux.eq_def]
    split
    · simp_all
    · rename_i heq
      injection heq with h1 _
      exact absurd h1 hcr
    · rename_i c' rest' hno heq
      rename_i a0 a1 a2
      injection heq with h1 h2
      subst h1; subst h2
      rw [if_neg (by rw [hc]; exact Bool.false_ne_true),
        ih (c :: a0) (fun d hd => h d (List.mem_cons_of_mem _ hd))]
      simp

theorem splitLines_no_break {l : List Char} (hl : l ≠ [])
    (h : ∀ c ∈ l, isLineBreak c = false) : splitLines l = [l] := by
  rw [splitLines, splitLinesAux_no_break _ _ h]
  simp [hl]

/-- Claim C3 (amended): a non-blank, non-comment single-line input with
unbalanced outer parentheses is silently skipped — `parse_fd_plan_text`
succeeds and the line contributes no step and no cost — rather than failing
with an error. -/
theorem c3_unbalanced_line_skipped (l : String)
    (hnl : ∀ c ∈ l.data, isLineBreak c = false)
    (hne : pyStrip l.data ≠ [])
    (hcm : (pyStrip l.data).head? ≠ some ';')
    (hub : ¬((pyStrip l.data).head? = some '(' ∧ (pyStrip l.data).getLast? = some ')')) :
    parse_fd_plan_text l = Except.ok ([], none) := by
  have hld : l.data ≠ [] := by
    intro he
    apply hne
    rw [he]
    rfl
  rw [parse_fd_plan_text, splitLines_no_break hld hnl]
  have h1 : (pyStrip l.data).isEmpty = false := by
    rw [Bool.eq_false_iff]
    intro hh
    exact hne (List.isEmpty_iff.mp hh)
  have h2 : ((pyStrip l.data).head? == some ';') = false := beq_eq_false_iff_ne.mpr hcm
  have h3 : (((pyStrip l.data).head? == some '(')
      && ((pyStrip l.data).getLast? == some ')')) = false := by
    rw [Bool.and_eq_false_iff]
    by_cases hh : (pyStrip l.data).head? = some '('
    · right
      refine beq_eq_false_iff_ne.mpr (fun hl => ?_)
      exact hub ⟨hh, hl⟩
    · left
      exact beq_eq_false_iff_ne.mpr hh
  simp only [parse_plan_lines, h1, h2, h3, Bool.false_eq_true, if_false]

set_option maxHeartbeats 2000000 in
/-- Witness for the amended C3 theorem: a concrete unbalanced action line is
skipped and parsing succeeds. -/
theorem c3_unbalanced_line_skipped_witness :
    parse_fd_plan_text "(pickup b2" = Except.ok ([], none) :=
  c3_unbalanced_line_skipped "(pickup b2" (by decide) (by decide) (by decide) (by decide)

theorem getLast?_cons_or {α : Type} : ∀ (l : List α) (a : α),
    (a :: l).getLast? = l.getLast?.or (some a) := by
  intro l
  induction l with
  | nil => intro a; rfl
  | cons b bs ih =>
    intro a
    rw [List.getLast?_cons_cons, ih b, Option.or_assoc]
    rfl

theorem parse_plan_lines_cost :
    ∀ (lines : List (List Char)) (c0 : Option Nat) (steps : List Step) (c : Option Nat),
      parse_plan_lines lines c0 = Except.ok (steps, c) →
      c = (comment_costs lines).getLast?.or c0 := by
  intro lines
  induction lines with
  | nil =>
    intro c0 steps c h
    simp only [parse_plan_lines, Except.ok.injEq] at h
    have hc : c0 = c := congrArg Prod.snd h
    simp [comment_costs, ← hc]
  | cons raw rest ih =>
    intro c0 steps c h
    simp only [parse_plan_lines] at h
    by_cases hempty : (pyStrip raw).isEmpty = true
    · rw [if_pos hempty] at h
      have hsemi : ((pyStrip raw).head? == some ';') = false := by
        rw [List.isEmpty_iff.mp hempty]
        rfl
      have hcceq : comment_costs (raw :: rest) = comment_costs rest := by
        simp only [comment_costs, List.filterMap_cons, hsemi, Bool.false_eq_true, if_false]
      rw [hcceq]
      exact ih c0 steps c h
    · rw [if_neg hempty] at h
      by_cases hsemi : ((pyStrip raw).head? == some ';') = true
      · rw [if_pos hsemi] at h
        cases hsearch : searchCost (pyStrip raw) with
        | none =>
          rw [hsearch] at h
          have hcceq : comment_costs (raw :: rest) = comment_costs rest := by
            simp only [comment_costs, List.filterMap_cons, hsemi, if_true, hsearch]
          rw [hcceq]
          exact ih c0 steps c h
        | some n =>
          rw [hsearch] at h
          have hcceq : comment_costs (raw :: rest) = n :: comment_costs rest := by
            simp only [comment_costs, List.filterMap_cons, hsemi, if_true, hsearch]
          have hrec := ih (some n) steps c h
          rw [hcceq, hrec, getLast?_cons_or, Option.or_assoc]
          rfl
      · rw [if_neg hsemi] at h
        have hcceq : comment_costs (raw :: rest) = comment_costs rest := by
          simp only [comment_costs, List.filterMap_cons, Bool.eq_false_iff.mpr hsemi,
            Bool.false_eq_true, if_false]
        rw [hcceq]
        by_cases hbal : (((pyStrip raw).head? == some '(')
            && ((pyStrip raw).getLast? == some ')')) = true
        · rw [if_pos hbal] at h
          cases hatom : parse_action_atom (pyStrip raw) with
          | error e => rw [hatom] at h; exact absurd h (by simp)
          | ok step =>
            rw [hatom] at h
            cases hrec : parse_plan_lines rest c0 with
            | error e => rw [hrec] at h; exact absurd h (by simp)
            | ok pr =>
              rw [hrec] at h
              simp only [Except.ok.injEq] at h
              have hc : pr.2 = c := congrArg Prod.snd h
              rw [← hc]
              exact ih c0 pr.1 pr.2 (by rw [hrec])
        · rw [if_neg hbal] at h
          exact ih c0 steps c h

/-- Claim C9: the parsed plan's cost is the cost of the last comment line
carrying a `cost = <integer>` pattern (later matches overwrite earlier ones,
no averaging or summing), and is null when no comment line matches. -/
theorem c9_last_cost_wins (t : String) (steps : List Step) (cost : Option Nat)
    (h : parse_fd_plan_text t = Except.ok (steps, cost)) :
    cost = (comment_costs (splitLines t.data)).getLast? := by
  rw [parse_fd_plan_text] at h
  have hc := parse_plan_lines_cost _ none steps cost h
  simpa using hc

/-- Witness for the C9 theorem: two comment lines carry costs 3 and 9; the
parsed cost is 9, the last match. -/
theorem c9_last_cost_wins_witness :
    parse_fd_plan_text "; cost = 3\n(a b)\n; cost = 9 (unit)"
      = Except.ok ([("a", ["b"])], some 9) ∧
    (some 9 : Option Nat)
      = (comment_costs (splitLines ("; cost = 3\n(a b)\n; cost = 9 (unit)" : String).data)).getLast? :=
  ⟨rfl, c9_last_cost_wins _ [("a", ["b"])] (some 9) rfl⟩

theorem color_facts_eq_flatten (props : List (String × Props)) :
    color_facts props = (props.map (fun p => color_fact_of p.1 p.2)).flatten := by
  induction props with
  | nil => rfl
  | cons p rest ih =>
    obtain ⟨n, pr⟩ := p
    rw [color_facts, List.map_cons, List.flatten_cons, ih]

theorem alookup_perm {α : Type} {l1 l2 : List (String × α)} (hperm : l1.Perm l2)
    (hnd : (l1.map Prod.fst).Nodup) (k : String) : alookup l1 k = alookup l2 k := by
  unfold alookup
  cases hf1 : l1.find? (fun p => p.1 == k) with
  | none =>
    rw [List.find?_eq_none] at hf1
    rw [List.find?_eq_none.mpr]
    intro p hp
    exact hf1 p (hperm.mem_iff.mpr hp)
  | some p =>
    have hp1 : p ∈ l1 := List.mem_of_find?_eq_some hf1
    have hpk := List.find?_some hf1
    cases hf2 : l2.find? (fun q => q.1 == k) with
    | none =>
      rw [List.find?_eq_none] at hf2
      exact absurd hpk (hf2 p (hperm.mem_iff.mp hp1))
    | some q =>
      have hq2 : q ∈ l2 := List.mem_of_find?_eq_some hf2
      have hqk := List.find?_some hf2
      simp only [beq_iff_eq] at hpk hqk
      have hpq : p = q := List.inj_on_of_nodup_map hnd hp1 (hperm.mem_iff.mpr hq2)
        (by rw [hpk, hqk])
      rw [hpq]

theorem akey_perm {α : Type} {l1 l2 : List (String × α)} (hperm : l1.Perm l2) (k : String) :
    akey l1 k = akey l2 k := by
  unfold akey
  rw [Bool.eq_iff_iff, List.any_eq_true, List.any_eq_true]
  constructor
  · rintro ⟨p, hp, hpk⟩
    exact ⟨p, hperm.mem_iff.mp hp, hpk⟩
  · rintro ⟨p, hp, hpk⟩
    exact ⟨p, hperm.mem_iff.mpr hp, hpk⟩

theorem dict_update_perm {b1 b2 u1 u2 : List (String × Props)}
    (hb : b1.Perm b2) (hu : u1.Perm u2) (hund : (u1.map Prod.fst).Nodup) :
    (dict_update b1 u1).Perm (dict_update b2 u2) := by
  unfold dict_update
  apply List.Perm.append
  · have hfun : (fun p : String × Props =>
        match alookup u1 p.1 with
        | some w => (p.1, w)
        | none => p)
        = (fun p : String × Props =>
        match alookup u2 p.1 with
        | some w => (p.1, w)
        | none => p) := by
      funext p
      rw [alookup_perm hu hund p.1]
    rw [hfun]
    exact hb.map _
  · have hfil : (fun q : String × Props => !(akey b1 q.1))
        = (fun q : String × Props => !(akey b2 q.1)) := by
      funext q
      rw [akey_perm hb q.1]
    rw [hfil]
    exact hu.filter _

theorem contains_perm {l1 l2 : List String} (h : l1.Perm l2) (a : String) :
    l1.contains a = l2.contains a := by
  rw [Bool.eq_iff_iff, string_contains_iff, string_contains_iff]
  exact h.mem_iff

theorem occupied_perm {s1 s2 : List (String × List String)} (h : s1.Perm s2) :
    (occupied_locations s1).Perm (occupied_locations s2) :=
  (h.filter _).map _

theorem init_facts_perm (s1 s2 : ProblemSpec)
    (hrob : s1.robot_at = s2.robot_at)
    (hhold : s1.holding = s2.holding)
    (hlp : s1.loc_props.Perm s2.loc_props)
    (hbp : s1.box_props.Perm s2.box_props)
    (hbpnd : (s1.box_props.map Prod.fst).Nodup)
    (hforb : s1.forbidden_stack.Perm s2.forbidden_stack)
    (hst : s1.stacks'.Perm s2.stacks')
    (hloc : s1.locations.Perm s2.locations) :
    (init_facts s1).Perm (init_facts s2) := by
  unfold init_facts
  refine List.Perm.append (List.Perm.append (List.Perm.append (List.Perm.append
    (List.Perm.append ?prob ?phand) ?pcol) ?pforb) ?pstk) ?pclr
  · rw [hrob]
  · rw [hhold]
  · rw [color_facts_eq_flatten, color_facts_eq_flatten]
    exact ((dict_update_perm hlp hbp hbpnd).map _).flatten
  · exact hforb.map _
  · exact (hst.map _).flatten
  · have hfun : (fun l => !((occupied_locations s1.stacks').contains l))
        = (fun l => !((occupied_locations s2.stacks').contains l)) := by
      funext x
      rw [contains_perm (occupied_perm hst) x]
    rw [hfun]
    exact (hloc.filter _).map _

theorem sortStrings_eq_of_perm {l1 l2 : List String} (h : l1.Perm l2) :
    sortStrings l1 = sortStrings l2 := by
  apply List.eq_of_perm_of_sorted (r := pyLe)
  · exact (List.perm_insertionSort pyLe l1).trans (h.trans (List.perm_insertionSort pyLe l2).symm)
  · exact List.sorted_insertionSort pyLe l1
  · exact List.sorted_insertionSort pyLe l2

/-- Claim C1: two specifications that declare the same robot position, hand
state, properties, forbidden pairs, stacks and locations — each up to input
order (list order or mapping-key order), with the property maps and stack
mapping carrying each key once as dicts do — produce byte-identical text for
the `(:init ...)` block: every derived fact is a rendered string and the fact
list is sorted lexicographically before emission. -/
theorem c1_init_block_deterministic (s1 s2 : ProblemSpec)
    (hrob : s1.robot_at = s2.robot_at)
    (hhold : s1.holding = s2.holding)
    (hlp : s1.loc_props.Perm s2.loc_props)
    (hbp : s1.box_props.Perm s2.box_props)
    (hbpnd : (s1.box_props.map Prod.fst).Nodup)
    (hforb : s1.forbidden_stack.Perm s2.forbidden_stack)
    (hst : s1.stacks'.Perm s2.stacks')
    (hloc : s1.locations.Perm s2.locations) :
    init_block s1 = init_block s2 := by
  unfold init_block
  rw [sortStrings_eq_of_perm
    (init_facts_perm s1 s2 hrob hhold hlp hbp hbpnd hforb hst hloc)]

/-- Witness for the C1 theorem: `c1_wit_spec1` and `c1_wit_spec2` list the
locations and their property maps in opposite orders yet render the same
init block. -/
theorem c1_init_block_deterministic_witness :
    c1_wit_spec1.locations.Perm c1_wit_spec2.locations ∧
    c1_wit_spec1.locations ≠ c1_wit_spec2.locations ∧
    init_block c1_wit_spec1 = init_block c1_wit_spec2 := by
  refine ⟨List.Perm.swap "l2" "l1" [], by decide, ?_⟩
  exact c1_init_block_deterministic c1_wit_spec1 c1_wit_spec2 rfl rfl
    (List.Perm.swap ("l2", [("color", J.str "white")]) ("l1", []) [])
    (List.Perm.refl _) (by decide) (List.Perm.refl _) (List.Perm.refl _)
    (List.Perm.swap "l2" "l1" [])
